import Mathlib

set_option maxHeartbeats 1000000

namespace FlyKrew

/-! Basic helpers modelling Python string operations over List Char.
    These embed the string manipulation used in src/app/zipper.py and
    src/app/main.py: str.strip(), str.strip(" ."), str.lower(), and the
    regex substitution of invalid Windows filename characters. -/

def isPythonSpace (c : Char) : Bool :=
  c = ' ' || c = '\t' || c = '\n' || c = '\r' || c = '\x0b' || c = '\x0c'

/-- Remove trailing characters satisfying p (Python strip, right side). -/
def dropTrailing (p : Char → Bool) (l : List Char) : List Char :=
  (l.reverse.dropWhile p).reverse

/-- Python s.strip(chars): remove leading and trailing characters in the set. -/
def stripBoth (p : Char → Bool) (l : List Char) : List Char :=
  dropTrailing p (l.dropWhile p)

def pyStrip (l : List Char) : List Char := stripBoth isPythonSpace l

def isSpaceOrDot (c : Char) : Bool := c = ' ' || c = '.'

def pyLower (l : List Char) : List Char := l.map Char.toLower

/-! Embedding of src/app/zipper.py -/

def INVALID_WINDOWS_CHARS : List Char := ['<', '>', ':', '\"', '/', '\\', '|', '?', '*']

def isInvalidWindowsChar (c : Char) : Bool := INVALID_WINDOWS_CHARS.contains c

/-- _INVALID_WINDOWS_RE.sub(the replacement underscore, name) -/
def replaceInvalid (l : List Char) : List Char :=
  l.map (fun c => if isInvalidWindowsChar c then '_' else c)

def MAX_FILENAME_LENGTH : Nat := 200

/-- zipper.sanitize_filename: replace invalid characters, strip leading and
    trailing spaces and dots, truncate to max_length and re-strip. -/
def sanitize_filename (name : List Char) (max_length : Nat) : List Char :=
  if max_length < (stripBoth isSpaceOrDot (replaceInvalid name)).length then
    stripBoth isSpaceOrDot ((stripBoth isSpaceOrDot (replaceInvalid name)).take max_length)
  else stripBoth isSpaceOrDot (replaceInvalid name)

/-! Lemmas about dropWhile / dropTrailing / stripBoth needed for the
    idempotence and collision claims. -/

theorem mem_dropWhile {p : Char → Bool} : ∀ {l : List Char} {c : Char},
    c ∈ l.dropWhile p → c ∈ l := by
  intro l
  induction l with
  | nil => intro c h; simp [List.dropWhile] at h
  | cons a t ih =>
      intro c h
      by_cases hp : p a
      · simp only [List.dropWhile, hp] at h
        exact List.mem_cons_of_mem a (ih h)
      · simp only [List.dropWhile, hp, Bool.false_eq_true, if_false] at h
        exact h

theorem length_dropWhile_le (p : Char → Bool) : ∀ l : List Char,
    (l.dropWhile p).length ≤ l.length := by
  intro l
  induction l with
  | nil => simp [List.dropWhile]
  | cons a t ih =>
      by_cases hp : p a
      · simp only [List.dropWhile, hp]
        exact Nat.le_succ_of_le ih
      · simp [List.dropWhile, hp]

theorem head?_dropWhile_not (p : Char → Bool) : ∀ (l : List Char) (a : Char),
    (l.dropWhile p).head? = some a → p a = false := by
  intro l
  induction l with
  | nil => intro a h; simp [List.dropWhile] at h
  | cons b t ih =>
      intro a h
      by_cases hp : p b
      · simp only [List.dropWhile, hp] at h
        exact ih a h
      · simp only [List.dropWhile, hp] at h
        simp only [List.head?] at h
        cases h
        simpa using hp

theorem dropWhile_eq_self_of_head (p : Char → Bool) (l : List Char)
    (h : ∀ a, l.head? = some a → p a = false) : l.dropWhile p = l := by
  cases l with
  | nil => simp [List.dropWhile]
  | cons a t =>
      have ha := h a (by simp)
      simp [List.dropWhile, ha]

theorem dropWhile_append_single (p : Char → Bool) : ∀ (l : List Char) (a : Char),
    (l ++ [a]).dropWhile p =
      if (l.dropWhile p).isEmpty then [a].dropWhile p else l.dropWhile p ++ [a] := by
  intro l
  induction l with
  | nil => intro a; simp [List.dropWhile]
  | cons b t ih =>
      intro a
      by_cases hp : p b
      · simpa [List.dropWhile, hp] using ih a
      · simp [List.dropWhile, hp]

theorem dropTrailing_cons (p : Char → Bool) (a : Char) (t : List Char) :
    dropTrailing p (a :: t) =
      if (dropTrailing p t).isEmpty then (if p a then [] else [a])
      else a :: dropTrailing p t := by
  unfold dropTrailing
  rw [show (a :: t).reverse = t.reverse ++ [a] by simp, dropWhile_append_single]
  cases hdr : t.reverse.dropWhile p with
  | nil =>
      by_cases hp : p a
      · simp [List.dropWhile, hp]
      · simp [List.dropWhile, hp]
  | cons x xs => simp

theorem head?_dropTrailing (p : Char → Bool) (l : List Char) (a : Char)
    (h : (dropTrailing p l).head? = some a) : l.head? = some a := by
  cases l with
  | nil => simp [dropTrailing] at h
  | cons b t =>
      rw [dropTrailing_cons] at h
      by_cases he : (dropTrailing p t).isEmpty
      · rw [if_pos he] at h
        by_cases hp : p b
        · simp [hp] at h
        · simp [hp] at h
          simp [h]
      · rw [if_neg he] at h
        simp at h
        simp [h]

theorem getLast?_dropTrailing_not (p : Char → Bool) (l : List Char) (a : Char)
    (h : (dropTrailing p l).getLast? = some a) : p a = false := by
  unfold dropTrailing at h
  rw [List.getLast?_reverse] at h
  exact head?_dropWhile_not p l.reverse a h

theorem dropTrailing_eq_self (p : Char → Bool) (l : List Char)
    (h : ∀ a, l.getLast? = some a → p a = false) : dropTrailing p l = l := by
  unfold dropTrailing
  have hh : ∀ a, l.reverse.head? = some a → p a = false := by
    intro a ha
    rw [List.head?_reverse] at ha
    exact h a ha
  rw [dropWhile_eq_self_of_head p l.reverse hh, List.reverse_reverse]

theorem mem_dropTrailing {p : Char → Bool} {l : List Char} {c : Char}
    (h : c ∈ dropTrailing p l) : c ∈ l := by
  unfold dropTrailing at h
  rw [List.mem_reverse] at h
  have := mem_dropWhile h
  rwa [List.mem_reverse] at this

theorem length_dropTrailing_le (p : Char → Bool) (l : List Char) :
    (dropTrailing p l).length ≤ l.length := by
  unfold dropTrailing
  rw [List.length_reverse]
  calc (l.reverse.dropWhile p).length ≤ l.reverse.length := length_dropWhile_le p l.reverse
    _ = l.length := by rw [List.length_reverse]

theorem mem_stripBoth {p : Char → Bool} {l : List Char} {c : Char}
    (h : c ∈ stripBoth p l) : c ∈ l :=
  mem_dropWhile (mem_dropTrailing h)

theorem length_stripBoth_le (p : Char → Bool) (l : List Char) :
    (stripBoth p l).length ≤ l.length :=
  le_trans (length_dropTrailing_le p (l.dropWhile p)) (length_dropWhile_le p l)

theorem stripBoth_head_not (p : Char → Bool) (l : List Char) (a : Char)
    (h : (stripBoth p l).head? = some a) : p a = false :=
  head?_dropWhile_not p l a (head?_dropTrailing p (l.dropWhile p) a h)

theorem stripBoth_getLast_not (p : Char → Bool) (l : List Char) (a : Char)
    (h : (stripBoth p l).getLast? = some a) : p a = false :=
  getLast?_dropTrailing_not p (l.dropWhile p) a h

theorem stripBoth_eq_self (p : Char → Bool) (l : List Char)
    (hh : ∀ a, l.head? = some a → p a = false)
    (hl : ∀ a, l.getLast? = some a → p a = false) : stripBoth p l = l := by
  unfold stripBoth
  rw [dropWhile_eq_self_of_head p l hh, dropTrailing_eq_self p l hl]

theorem stripBoth_idem (p : Char → Bool) (l : List Char) :
    stripBoth p (stripBoth p l) = stripBoth p l :=
  stripBoth_eq_self p (stripBoth p l)
    (fun a ha => stripBoth_head_not p l a ha)
    (fun a ha => stripBoth_getLast_not p l a ha)

/-! sanitize_filename structural lemmas -/

theorem mem_sanitize_valid (name : List Char) (m : Nat) (c : Char)
    (h : c ∈ sanitize_filename name m) : isInvalidWindowsChar c = false := by
  have hrep : c ∈ replaceInvalid name → isInvalidWindowsChar c = false := by
    intro hc
    unfold replaceInvalid at hc
    rcases List.mem_map.mp hc with ⟨x, _, hx⟩
    by_cases hbad : isInvalidWindowsChar x
    · rw [if_pos hbad] at hx
      rw [← hx]
      decide
    · rw [if_neg hbad] at hx
      rw [← hx]
      simpa using hbad
  unfold sanitize_filename at h
  by_cases hlen : m < (stripBoth isSpaceOrDot (replaceInvalid name)).length
  · rw [if_pos hlen] at h
    exact hrep (mem_stripBoth (List.take_subset _ _ (mem_stripBoth h)))
  · rw [if_neg hlen] at h
    exact hrep (mem_stripBoth h)

theorem replaceInvalid_eq_self : ∀ l : List Char,
    (∀ c ∈ l, isInvalidWindowsChar c = false) → replaceInvalid l = l := by
  intro l
  induction l with
  | nil => intro _; rfl
  | cons a t ih =>
      intro h
      have ha := h a (List.mem_cons_self a t)
      have ht := ih (fun c hc => h c (List.mem_cons_of_mem a hc))
      unfold replaceInvalid at ht ⊢
      simp only [List.map_cons, ha, if_false, ht]
      simp [ha]

theorem sanitize_stripBoth_fixed (name : List Char) (m : Nat) :
    stripBoth isSpaceOrDot (sanitize_filename name m) = sanitize_filename name m := by
  unfold sanitize_filename
  by_cases hlen : m < (stripBoth isSpaceOrDot (replaceInvalid name)).length
  · rw [if_pos hlen]
    exact stripBoth_idem _ _
  · rw [if_neg hlen]
    exact stripBoth_idem _ _

theorem sanitize_length_le (name : List Char) (m : Nat) :
    (sanitize_filename name m).length ≤ m := by
  unfold sanitize_filename
  by_cases hlen : m < (stripBoth isSpaceOrDot (replaceInvalid name)).length
  · rw [if_pos hlen]
    calc (stripBoth isSpaceOrDot ((stripBoth isSpaceOrDot (replaceInvalid name)).take m)).length
        ≤ ((stripBoth isSpaceOrDot (replaceInvalid name)).take m).length :=
          length_stripBoth_le _ _
      _ ≤ m := by simp [List.length_take]
  · rw [if_neg hlen]
    exact Nat.le_of_not_lt hlen

/-- C9: sanitize_filename is idempotent: sanitizing an already-sanitized
    filename with the same maximum length yields the same string, for every
    input string and every maximum length. -/
theorem sanitize_filename_idempotent (name : List Char) (m : Nat) :
    sanitize_filename (sanitize_filename name m) m = sanitize_filename name m := by
  have h1 : replaceInvalid (sanitize_filename name m) = sanitize_filename name m :=
    replaceInvalid_eq_self _ (fun c hc => mem_sanitize_valid name m c hc)
  have h2 : stripBoth isSpaceOrDot (sanitize_filename name m) = sanitize_filename name m :=
    sanitize_stripBoth_fixed name m
  have h3 : (sanitize_filename name m).length ≤ m := sanitize_length_le name m
  generalize hr : sanitize_filename name m = r at h1 h2 h3 ⊢
  unfold sanitize_filename
  rw [h1, h2, if_neg (Nat.not_lt.mpr h3)]

/-! Data model: TrackInfo (src/app/downloader.py).  Since Python does not
    enforce the declared str types, title and artist are Option-valued: the
    pipeline stores `title or track_result.get(the title key)`, which can be
    None. -/

structure TrackInfo where
  index : Int
  title : Option (List Char)
  artist : Option (List Char)
  duration : Int
  file_path : List Char
deriving DecidableEq, Repr

/-- Python `x or default` on an optional string, where None and the empty
    string are falsy. -/
def pyOrStr (o : Option (List Char)) (d : List Char) : List Char :=
  match o with
  | some s => if s.isEmpty then d else s
  | none => d

/-- Python `a or b` on two optional strings, keeping the result optional. -/
def pyOrOptStr (a b : Option (List Char)) : Option (List Char) :=
  match a with
  | some s => if s.isEmpty then b else some s
  | none => b

/-- Python `x or default` on an optional int, where None and 0 are falsy. -/
def pyOrInt (o : Option Int) (d : Int) : Int :=
  match o with
  | some n => if n = 0 then d else n
  | none => d

/-- Python f-string formatting with the 02d spec: decimal with zeros padding
    the rendering to at least two characters (sign included). -/
def format02d (n : Int) : List Char :=
  if n < 0 then '-' :: Nat.toDigits 10 n.natAbs
  else
    if (Nat.toDigits 10 n.toNat).length < 2 then '0' :: Nat.toDigits 10 n.toNat
    else Nat.toDigits 10 n.toNat

/-- zipper.format_track_filename: two-digit index, then artist and title
    (artist omitted when empty or the literal word unknown, title defaulting
    to the placeholder Track), then the mp3 extension, all sanitized. -/
def format_track_filename (track : TrackInfo) : List Char :=
  let index_str := format02d track.index
  let artist := pyStrip (pyOrStr track.artist [])
  let title0 := pyStrip (pyOrStr track.title [])
  let title := if title0.isEmpty then "Track".toList else title0
  let base :=
    if artist.isEmpty || pyLower artist = "unknown".toList then
      index_str ++ " - ".toList ++ title ++ ".mp3".toList
    else
      index_str ++ " - ".toList ++ artist ++ " - ".toList ++ title ++ ".mp3".toList
  sanitize_filename base MAX_FILENAME_LENGTH

/-! pathlib stem and suffix of a final path component (CPython PurePath
    semantics: the suffix starts at the last dot, provided that dot is
    neither the first nor the last character of the name). -/

/-- Index of the last dot in a name (Python str.rfind of the dot). -/
def lastDotPos : List Char → Option Nat
  | [] => none
  | c :: rest =>
      match lastDotPos rest with
      | some j => some (j + 1)
      | none => if c = '.' then some 0 else none

def pathSuffix (name : List Char) : List Char :=
  match lastDotPos name with
  | some i => if 0 < i ∧ i < name.length - 1 then name.drop i else []
  | none => []

def pathStem (name : List Char) : List Char :=
  match lastDotPos name with
  | some i => if 0 < i ∧ i < name.length - 1 then name.take i else name
  | none => name

/-- create_playlist_zip.unique_zip_name: first occurrence of a desired name
    keeps it; the Nth occurrence (N at least 2) gets an " (N)" disambiguator
    inserted before the extension, with the result re-sanitized.  The
    used-names dict is modelled as a function with default 0. -/
def unique_zip_name (used : List Char → Nat) (desired : List Char) :
    (List Char → Nat) × List Char :=
  let count := used desired
  if count = 0 then
    (fun d => if d = desired then 1 else used d, desired)
  else
    let used2 := fun d => if d = desired then count + 1 else used d
    let candidate := pathStem desired ++ " (".toList ++ Nat.toDigits 10 (count + 1)
      ++ ")".toList ++ pathSuffix desired
    (used2, sanitize_filename candidate MAX_FILENAME_LENGTH)

/-- The in-memory branch of create_playlist_zip: write each track under its
    unique in-archive name into the buffer-backed archive.  The archive is
    modelled as its ordered list of (arcname, source path) entries; a write
    of a missing source file raises, aborting the pack operation. -/
def zipWriteInMemory (fsExists : List Char → Bool) (used : List Char → Nat) :
    List TrackInfo → Except (List Char) (List (List Char × List Char))
  | [] => .ok []
  | track :: rest =>
    let p := unique_zip_name used (format_track_filename track)
    if fsExists track.file_path then
      match zipWriteInMemory fsExists p.1 rest with
      | .ok entries => .ok ((p.2, track.file_path) :: entries)
      | .error msg => .error msg
    else .error ("No such file or directory: ".toList ++ track.file_path)

/-- The streaming branch of create_playlist_zip: write each track under its
    unique in-archive name directly into the on-disk archive. -/
def zipWriteStreaming (fsExists : List Char → Bool) (used : List Char → Nat) :
    List TrackInfo → Except (List Char) (List (List Char × List Char))
  | [] => .ok []
  | track :: rest =>
    let p := unique_zip_name used (format_track_filename track)
    if fsExists track.file_path then
      match zipWriteStreaming fsExists p.1 rest with
      | .ok entries => .ok ((p.2, track.file_path) :: entries)
      | .error msg => .error msg
    else .error ("No such file or directory: ".toList ++ track.file_path)

structure ZipResult where
  zip_path : List Char
  entries : List (List Char × List Char)
deriving DecidableEq, Repr

/-- zipper.create_playlist_zip: compute the archive name from the display
    title, sum source-file sizes (a failing stat counts as zero), pick the
    in-memory path when the total is below 100 MiB and the streaming path
    otherwise, and write every track. -/
def create_playlist_zip (fsSize : List Char → Option Nat)
    (fsExists : List Char → Bool) (tracks : List TrackInfo)
    (playlist_title : List Char) : Except (List Char) ZipResult :=
  let zip_name0 := sanitize_filename
    (if playlist_title.isEmpty then "playlist".toList else playlist_title)
    MAX_FILENAME_LENGTH
  let zip_name := if zip_name0.isEmpty then "playlist".toList else zip_name0
  let zip_path := zip_name ++ ".zip".toList
  let total_bytes := tracks.foldl (fun acc t => acc + ((fsSize t.file_path).getD 0)) 0
  let in_memory := total_bytes < 100 * 1024 * 1024
  if in_memory then
    match zipWriteInMemory fsExists (fun _ => 0) tracks with
    | .ok entries => .ok ⟨zip_path, entries⟩
    | .error m => .error m
  else
    match zipWriteStreaming fsExists (fun _ => 0) tracks with
    | .ok entries => .ok ⟨zip_path, entries⟩
    | .error m => .error m

theorem zipWrite_paths_agree (fsExists : List Char → Bool) :
    ∀ (tracks : List TrackInfo) (used : List Char → Nat),
    zipWriteInMemory fsExists used tracks = zipWriteStreaming fsExists used tracks := by
  intro tracks
  induction tracks with
  | nil => intro used; rfl
  | cons t rest ih =>
      intro used
      unfold zipWriteInMemory zipWriteStreaming
      simp only [ih]

/-- C7: for the same track list and display title, the in-memory packing
    path (taken exactly when the summed source sizes, missing files counted
    as zero, are below 100 MiB) and the streaming path produce identical
    archive contents: the result of create_playlist_zip does not depend on
    the size oracle, hence not on which of the two write paths runs. -/
theorem create_playlist_zip_paths_identical
    (fsSize fsSize2 : List Char → Option Nat) (fsExists : List Char → Bool)
    (tracks : List TrackInfo) (playlist_title : List Char) :
    create_playlist_zip fsSize fsExists tracks playlist_title =
      create_playlist_zip fsSize2 fsExists tracks playlist_title := by
  unfold create_playlist_zip
  simp only [zipWrite_paths_agree fsExists, ite_self]

/-! Collision resolution (C8, C10). -/

theorem sanitize_eq_self (l : List Char) (m : Nat)
    (hval : ∀ c ∈ l, isInvalidWindowsChar c = false)
    (hh : ∀ a, l.head? = some a → isSpaceOrDot a = false)
    (hl : ∀ a, l.getLast? = some a → isSpaceOrDot a = false)
    (hlen : l.length ≤ m) : sanitize_filename l m = l := by
  unfold sanitize_filename
  rw [replaceInvalid_eq_self l hval, stripBoth_eq_self _ _ hh hl,
    if_neg (Nat.not_lt.mpr hlen)]

theorem sanitize_head_not (name : List Char) (m : Nat) (a : Char)
    (h : (sanitize_filename name m).head? = some a) : isSpaceOrDot a = false := by
  apply stripBoth_head_not isSpaceOrDot (sanitize_filename name m) a
  rw [sanitize_stripBoth_fixed]
  exact h

theorem format_track_filename_valid (t : TrackInfo) (c : Char)
    (h : c ∈ format_track_filename t) : isInvalidWindowsChar c = false := by
  unfold format_track_filename at h
  exact mem_sanitize_valid _ _ _ h

theorem format_track_filename_head (t : TrackInfo) (a : Char)
    (h : (format_track_filename t).head? = some a) : isSpaceOrDot a = false := by
  unfold format_track_filename at h
  exact sanitize_head_not _ _ _ h

theorem lastDotPos_append_mp3 : ∀ X : List Char,
    lastDotPos (X ++ ".mp3".toList) = some X.length := by
  intro X
  induction X with
  | nil => decide
  | cons a rest ih =>
      show lastDotPos (a :: (rest ++ ".mp3".toList)) = some (rest.length + 1)
      unfold lastDotPos
      rw [ih]

theorem length_append_mp3 (X : List Char) :
    (X ++ ".mp3".toList).length = X.length + 4 := by
  rw [List.length_append, (by decide : (".mp3".toList).length = 4)]

theorem pathSuffix_mp3 (X : List Char) (hX : X ≠ []) :
    pathSuffix (X ++ ".mp3".toList) = ".mp3".toList := by
  have h0 : 0 < X.length := List.length_pos.mpr hX
  have h1 : X.length < (X ++ ".mp3".toList).length - 1 := by
    rw [length_append_mp3]
    omega
  unfold pathSuffix
  rw [lastDotPos_append_mp3]
  show (if 0 < X.length ∧ X.length < (X ++ ".mp3".toList).length - 1 then
      List.drop X.length (X ++ ".mp3".toList) else []) = ".mp3".toList
  rw [if_pos ⟨h0, h1⟩]
  exact List.drop_left X _

theorem pathStem_mp3 (X : List Char) (hX : X ≠ []) :
    pathStem (X ++ ".mp3".toList) = X := by
  have h0 : 0 < X.length := List.length_pos.mpr hX
  have h1 : X.length < (X ++ ".mp3".toList).length - 1 := by
    rw [length_append_mp3]
    omega
  unfold pathStem
  rw [lastDotPos_append_mp3]
  show (if 0 < X.length ∧ X.length < (X ++ ".mp3".toList).length - 1 then
      List.take X.length (X ++ ".mp3".toList) else X ++ ".mp3".toList) = X
  rw [if_pos ⟨h0, h1⟩]
  exact List.take_left X _

theorem getLast?_append_right (X s : List Char) (hs : s ≠ []) :
    (X ++ s).getLast? = s.getLast? := by
  rw [← List.head?_reverse, ← List.head?_reverse, List.reverse_append]
  cases hsr : s.reverse with
  | nil =>
      exfalso
      apply hs
      have := congrArg List.reverse hsr
      simpa using this
  | cons b r => simp

theorem unique_zip_name_first (used : List Char → Nat) (d : List Char)
    (h : used d = 0) :
    unique_zip_name used d = (fun e => if e = d then 1 else used e, d) := by
  unfold unique_zip_name
  rw [h]
  simp

theorem unique_zip_name_second (used : List Char → Nat) (d : List Char)
    (h : used d = 1) :
    unique_zip_name used d = (fun e => if e = d then 2 else used e,
      sanitize_filename (pathStem d ++ " (".toList ++ Nat.toDigits 10 2
        ++ ")".toList ++ pathSuffix d) MAX_FILENAME_LENGTH) := by
  unfold unique_zip_name
  rw [h]
  simp

/-- The disambiguated second-occurrence name, in closed form. -/
theorem collision_candidate_eq (X : List Char) (hX : X ≠ [])
    (hval : ∀ c ∈ X, isInvalidWindowsChar c = false)
    (hh : ∀ a, X.head? = some a → isSpaceOrDot a = false)
    (hlen : X.length + 8 ≤ 200) :
    sanitize_filename (pathStem (X ++ ".mp3".toList) ++ " (".toList
        ++ Nat.toDigits 10 2 ++ ")".toList ++ pathSuffix (X ++ ".mp3".toList))
      MAX_FILENAME_LENGTH = X ++ " (2).mp3".toList := by
  rw [pathStem_mp3 X hX, pathSuffix_mp3 X hX]
  have hshape : X ++ " (".toList ++ Nat.toDigits 10 2 ++ ")".toList ++ ".mp3".toList
      = X ++ " (2).mp3".toList := by
    rw [List.append_assoc, List.append_assoc, List.append_assoc]
    congr 1
  rw [hshape]
  apply sanitize_eq_self
  · intro c hc
    rcases List.mem_append.mp hc with hc1 | hc2
    · exact hval c hc1
    · have hall : ∀ c ∈ " (2).mp3".toList, isInvalidWindowsChar c = false := by decide
      exact hall c hc2
  · intro a ha
    apply hh a
    cases X with
    | nil => exact absurd rfl hX
    | cons x xs =>
        simp only [List.cons_append, List.head?_cons] at ha ⊢
        exact ha
  · intro a ha
    rw [getLast?_append_right X (" (2).mp3".toList) (by decide)] at ha
    have h3 : (" (2).mp3".toList).getLast? = some '3' := by decide
    rw [h3] at ha
    cases ha
    decide
  · have hl8 : (X ++ " (2).mp3".toList).length = X.length + 8 := by
      rw [List.length_append, (by decide : (" (2).mp3".toList).length = 8)]
    rw [hl8]
    exact hlen

/-- C8: when two tracks format (after sanitization) to the identical
    in-archive name X.mp3, the archive entries produced are X.mp3 and
    X (2).mp3: the second colliding occurrence receives the " (2)"
    disambiguator before the extension (N = 2 being its 1-based occurrence
    count), and the disambiguated name passes through sanitize_filename
    unchanged provided it is short enough not to be truncated. -/
theorem collision_entries_X_X2 (t1 t2 : TrackInfo) (X : List Char)
    (fsE : List Char → Bool)
    (hfs1 : fsE t1.file_path = true) (hfs2 : fsE t2.file_path = true)
    (hfmt : format_track_filename t1 = X ++ ".mp3".toList)
    (heq : format_track_filename t2 = format_track_filename t1)
    (hX : X ≠ []) (hlen : X.length + 8 ≤ 200) :
    zipWriteInMemory fsE (fun _ => 0) [t1, t2] =
      .ok [(X ++ ".mp3".toList, t1.file_path),
           (X ++ " (2).mp3".toList, t2.file_path)] := by
  have h2 : format_track_filename t2 = X ++ ".mp3".toList := heq.trans hfmt
  have hval : ∀ c ∈ X, isInvalidWindowsChar c = false := by
    intro c hc
    apply format_track_filename_valid t1 c
    rw [hfmt]
    exact List.mem_append_left _ hc
  have hh : ∀ a, X.head? = some a → isSpaceOrDot a = false := by
    intro a ha
    apply format_track_filename_head t1 a
    rw [hfmt]
    cases X with
    | nil => simp at ha
    | cons x xs =>
        simp only [List.head?_cons] at ha
        simp only [List.cons_append, List.head?_cons]
        exact ha
  have step1 : unique_zip_name (fun _ => 0) (format_track_filename t1)
      = (fun e => if e = format_track_filename t1 then 1 else 0,
         format_track_filename t1) :=
    unique_zip_name_first _ _ rfl
  have hused1 : (fun e => if e = format_track_filename t1 then 1 else 0)
      (format_track_filename t2) = 1 := by
    show (if format_track_filename t2 = format_track_filename t1 then 1 else 0) = 1
    rw [if_pos heq]
  have step2 : unique_zip_name
      (fun e => if e = format_track_filename t1 then 1 else 0)
      (format_track_filename t2)
      = (fun e => if e = format_track_filename t2 then 2
           else if e = format_track_filename t1 then 1 else 0,
         sanitize_filename (pathStem (format_track_filename t2) ++ " (".toList
           ++ Nat.toDigits 10 2 ++ ")".toList
           ++ pathSuffix (format_track_filename t2)) MAX_FILENAME_LENGTH) :=
    unique_zip_name_second _ _ hused1
  show zipWriteInMemory fsE (fun _ => 0) (t1 :: t2 :: []) = _
  simp only [zipWriteInMemory]
  rw [step1]
  dsimp only
  rw [if_pos hfs1, step2]
  dsimp only
  rw [if_pos hfs2]
  rw [h2, collision_candidate_eq X hX hval hh hlen, hfmt]

/-! C10 failing input: unique_zip_name does not register the disambiguated
    names it generates, so a later track whose formatted name equals an
    already-generated disambiguated name collides with it. -/

def dupTrackA : TrackInfo :=
  { index := 1, title := some ("X".toList), artist := none, duration := 0,
    file_path := "a.mp3".toList }

def dupTrackB : TrackInfo :=
  { index := 1, title := some ("X".toList), artist := none, duration := 0,
    file_path := "b.mp3".toList }

def dupTrackC : TrackInfo :=
  { index := 1, title := some ("X (2)".toList), artist := none, duration := 0,
    file_path := "c.mp3".toList }

/-- C10: the in-archive names are NOT pairwise distinct for every input
    track list.  Three tracks whose formatted names are 01 - X.mp3,
    01 - X.mp3 and 01 - X (2).mp3 yield the archive entry names
    01 - X.mp3, 01 - X (2).mp3 and 01 - X (2).mp3: the disambiguated name
    generated for the second track is never recorded in the used-names map,
    so the third track receives the identical name. -/
theorem unique_zip_name_duplicate_arcnames :
    (zipWriteInMemory (fun _ => true) (fun _ => 0)
        [dupTrackA, dupTrackB, dupTrackC]).map (fun l => l.map Prod.fst)
      = .ok ["01 - X.mp3".toList, "01 - X (2).mp3".toList, "01 - X (2).mp3".toList]
    ∧ ¬ (["01 - X.mp3".toList, "01 - X (2).mp3".toList,
          "01 - X (2).mp3".toList] : List (List Char)).Nodup := by
  constructor
  · rfl
  · decide

/-! Embedding of src/app/downloader.py: PlaylistDownloader.download_playlist.

    External effects are oracles: `cancel` gives the value of the job's
    cancellation flag at the k-th read (the pipeline reads it once at the
    top of each loop iteration and once in the finally block of each
    attempted download); `oracle` gives the outcome of the yt-dlp download
    invocation for the entry at a given 1-based enumeration position; `fs`
    answers Path.exists for the mp3-extension sibling check.  The loop
    state additionally records ghost observations (progress events, sleep
    count, consumed checks, started downloads) that the claims quantify
    over. -/

structure Entry where
  playlist_index : Option Int
  title : Option (List Char)
  uploader : Option (List Char)
  artist : Option (List Char)
  duration : Option Int
  url : Option (List Char)
  webpage_url : Option (List Char)
deriving DecidableEq, Repr

structure TrackResult where
  requested_downloads : Option (List (Option (List Char)))
  filepath : Option (List Char)
  raw_filename : Option (List Char)
  title : Option (List Char)
  uploader : Option (List Char)
  duration : Option Int
deriving DecidableEq, Repr

inductive DlOutcome where
  | raised (msg : List Char)
  | ok (res : TrackResult)
deriving DecidableEq, Repr

structure TrackError where
  index : Int
  title : List Char
  error : List Char
deriving DecidableEq, Repr

inductive ProgressEvent where
  | started (current_track : List Char) (total : Nat)
  | finished (current_track : Option (List Char)) (total : Nat) (info : TrackInfo)
deriving DecidableEq, Repr

def evTotal : ProgressEvent → Nat
  | .started _ t => t
  | .finished _ t _ => t

def isFinished : ProgressEvent → Bool
  | .started _ _ => false
  | .finished _ _ _ => true

def countFinished (evs : List ProgressEvent) : Nat := (evs.filter isFinished).length

def truthyStr (o : Option (List Char)) : Bool :=
  match o with
  | some s => !s.isEmpty
  | none => false

/-- Determination of the downloaded file path from the yt-dlp result dict:
    the last truthy filepath among requested_downloads, else the dict's own
    filepath-or-filename fallback; a falsy final value raises the runtime
    error caught by the per-track handler. -/
def resolveFilePath (res : TrackResult) : Option (List Char) :=
  let fp1 : Option (List Char) :=
    match res.requested_downloads with
    | some items => items.foldl (fun acc item =>
        match item with
        | some c => if c.isEmpty then acc else some c
        | none => acc) none
    | none => none
  let fp2 : Option (List Char) :=
    match fp1 with
    | some c => some c
    | none => pyOrOptStr res.filepath res.raw_filename
  match fp2 with
  | some c => if c.isEmpty then none else some c
  | none => none

/-- Index of the last slash in a path (for pathlib final-component ops). -/
def lastSlashPos : List Char → Option Nat
  | [] => none
  | c :: rest =>
      match lastSlashPos rest with
      | some j => some (j + 1)
      | none => if c = '/' then some 0 else none

def splitDirName (s : List Char) : List Char × List Char :=
  match lastSlashPos s with
  | some i => (s.take (i + 1), s.drop (i + 1))
  | none => ([], s)

/-- The suffix check of download_playlist: when the reported path does not
    already have the mp3 extension (case-insensitively), switch to the
    with_suffix sibling if it exists on disk. -/
def mp3AdjustPath (fs : List Char → Bool) (file_path : List Char) : List Char :=
  let dir := (splitDirName file_path).1
  let name := (splitDirName file_path).2
  if pyLower (pathSuffix name) ≠ ".mp3".toList then
    let candidate := dir ++ pathStem name ++ ".mp3".toList
    if fs candidate then candidate else file_path
  else file_path

/-- TrackInfo built after a successful download, with the fallbacks to the
    yt-dlp result's own title, uploader and duration. -/
def mkTrackInfo (e : Entry) (res : TrackResult) (playlist_index : Int)
    (title : List Char) (duration : Int) (mp3_path : List Char) : TrackInfo :=
  { index := playlist_index,
    title := if title.isEmpty then res.title else some title,
    artist :=
      (let a := pyOrStr e.uploader (pyOrStr e.artist []);
       if a.isEmpty then res.uploader else some a),
    duration := if duration = 0 then pyOrInt res.duration 0 else duration,
    file_path := mp3_path }

structure LoopState where
  tracks : List TrackInfo
  errors : List TrackError
  events : List ProgressEvent
  sleeps : Nat
  checks : Nat
  started : Nat
  startedAtStop : Nat
  missingUrl : Nat
  stopped : Bool
deriving DecidableEq, Repr

def initLoopState : LoopState :=
  { tracks := [], errors := [], events := [], sleeps := 0, checks := 0,
    started := 0, startedAtStop := 0, missingUrl := 0, stopped := false }

def countsOf (st : LoopState) : Nat := st.tracks.length + st.errors.length

def missingUrlMsg : List Char := "Missing track URL in playlist entry".toList

def noFilePathMsg : List Char := "Could not determine downloaded file path".toList

/-- The body of the try/except around one download attempt: announce the
    track via the progress callback, run the download, and either append a
    TrackInfo (announcing completion) or append a TrackError. -/
def processUrlEntry (oracle : Nat → DlOutcome) (fs : List Char → Bool)
    (total : Nat) (st : LoopState) (fallback_index : Nat) (e : Entry)
    (playlist_index : Int) (title : List Char) (duration : Int) : LoopState :=
  let st1 := { st with events := st.events ++ [ProgressEvent.started title total],
                       started := st.started + 1 }
  match oracle fallback_index with
  | .raised msg =>
      { st1 with errors := st1.errors ++ [⟨playlist_index, title, msg⟩] }
  | .ok res =>
      match resolveFilePath res with
      | none =>
          { st1 with errors := st1.errors ++ [⟨playlist_index, title, noFilePathMsg⟩] }
      | some fp =>
          let ti := mkTrackInfo e res playlist_index title duration (mp3AdjustPath fs fp)
          { st1 with tracks := st1.tracks ++ [ti],
                     events := st1.events ++ [ProgressEvent.finished ti.title total ti] }

/-- The finally block after one download attempt: read the cancel flag,
    sleep the pacing interval, and record whether the loop stops after the
    current entry. -/
def finallyStep (cancel : Nat → Bool) (st : LoopState) : LoopState :=
  { st with
    checks := st.checks + 1,
    sleeps := st.sleeps + 1,
    stopped := cancel st.checks,
    startedAtStop := if cancel st.checks then st.started else st.startedAtStop }

/-- One iteration of the download loop over `enumerate(entries, start=1)`:
    top-of-loop cancellation check, empty-entry skip (no error, no sleep),
    missing-URL error (with sleep, without a finally cancellation read),
    or a full download attempt followed by the finally block. -/
def pipeStep (cancel : Nat → Bool) (oracle : Nat → DlOutcome) (fs : List Char → Bool)
    (total : Nat) (st : LoopState) (i : Nat) (entry : Option Entry) : LoopState :=
  if st.stopped then st
  else if cancel st.checks then
    { st with checks := st.checks + 1, stopped := true, startedAtStop := st.started }
  else
    let st1 := { st with checks := st.checks + 1 }
    match entry with
    | none => st1
    | some e =>
        let playlist_index := pyOrInt e.playlist_index (Int.ofNat i)
        let title := pyOrStr e.title []
        let duration := pyOrInt e.duration 0
        let track_url := pyOrOptStr e.url e.webpage_url
        if truthyStr track_url then
          finallyStep cancel
            (processUrlEntry oracle fs total st1 i e playlist_index title duration)
        else
          { st1 with errors := st1.errors ++ [⟨playlist_index, title, missingUrlMsg⟩],
                     sleeps := st1.sleeps + 1, missingUrl := st1.missingUrl + 1 }

def runEntries (cancel : Nat → Bool) (oracle : Nat → DlOutcome)
    (fs : List Char → Bool) (total : Nat) :
    LoopState → Nat → List (Option Entry) → LoopState
  | st, _, [] => st
  | st, i, e :: rest =>
      runEntries cancel oracle fs total (pipeStep cancel oracle fs total st i e) (i + 1) rest

/-- The raw playlist extraction dict: optional title, optional entry list
    (each entry itself possibly falsy/None). -/
structure PlaylistData where
  title : Option (List Char)
  entries : Option (List (Option Entry))
deriving DecidableEq, Repr

def countSome (l : List (Option Entry)) : Nat := (l.filter Option.isSome).length

structure DownloadResult where
  playlist_title : List Char
  tracks : List TrackInfo
  errors : List TrackError
deriving DecidableEq, Repr

structure PipelineRun where
  result : DownloadResult
  finalState : LoopState
deriving DecidableEq, Repr

/-- downloader.download_playlist: raise if ffmpeg is missing, extract the
    playlist (any extraction exception propagates), compute total_tracks as
    the count of non-empty entries, then run the per-entry loop. -/
def download_playlist (ffmpegExists : Bool)
    (extract : Except (List Char) PlaylistData)
    (cancel : Nat → Bool) (oracle : Nat → DlOutcome) (fs : List Char → Bool) :
    Except (List Char) PipelineRun :=
  if ffmpegExists = false then
    .error ("ffmpeg not found. Run setup_bins or install ffmpeg.".toList)
  else
    match extract with
    | .error msg => .error msg
    | .ok pd =>
        let playlist_title := pyOrStr pd.title []
        let entries := pd.entries.getD []
        let total_tracks := countSome entries
        let final := runEntries cancel oracle fs total_tracks initLoopState 1 entries
        .ok { result := { playlist_title := playlist_title,
                          tracks := final.tracks, errors := final.errors },
              finalState := final }

/-! Structural lemmas about the loop. -/

theorem pipeStep_stopped (cancel : Nat → Bool) (oracle : Nat → DlOutcome)
    (fs : List Char → Bool) (total : Nat) (st : LoopState) (i : Nat)
    (entry : Option Entry) (hs : st.stopped = true) :
    pipeStep cancel oracle fs total st i entry = st := by
  unfold pipeStep
  rw [hs]
  simp

theorem runEntries_stopped (cancel : Nat → Bool) (oracle : Nat → DlOutcome)
    (fs : List Char → Bool) (total : Nat) :
    ∀ (l : List (Option Entry)) (i : Nat) (st : LoopState), st.stopped = true →
    runEntries cancel oracle fs total st i l = st := by
  intro l
  induction l with
  | nil => intro i st _; rfl
  | cons e rest ih =>
      intro i st hs
      show runEntries cancel oracle fs total
        (pipeStep cancel oracle fs total st i e) (i + 1) rest = st
      rw [pipeStep_stopped cancel oracle fs total st i e hs]
      exact ih (i + 1) st hs

/-- Case analysis of one non-stopped loop iteration: the loop either stops
    at the top-of-loop cancellation read, skips an empty entry (one check,
    nothing else), records a missing-URL error (one check, one sleep, one
    error), or runs a full download attempt (two checks, one sleep, one
    started download, exactly one outcome appended, and the finally-block
    cancellation read deciding whether the loop stops after this entry). -/
theorem pipeStep_shape (cancel : Nat → Bool) (oracle : Nat → DlOutcome)
    (fs : List Char → Bool) (total : Nat) (st : LoopState) (i : Nat)
    (entry : Option Entry) (hns : st.stopped = false) :
    (cancel st.checks = true ∧
      pipeStep cancel oracle fs total st i entry
        = { st with
            checks := st.checks + 1,
            stopped := true,
            startedAtStop := st.started })
    ∨ (cancel st.checks = false ∧ entry = none ∧
      pipeStep cancel oracle fs total st i entry = { st with checks := st.checks + 1 })
    ∨ (cancel st.checks = false ∧ (∃ e err, entry = some e ∧
      pipeStep cancel oracle fs total st i entry
        = { st with
            checks := st.checks + 1,
            errors := st.errors ++ [err],
            sleeps := st.sleeps + 1,
            missingUrl := st.missingUrl + 1 }))
    ∨ (cancel st.checks = false ∧ (∃ e tD errD evD, entry = some e ∧
      tD.length + errD.length = 1 ∧
      countFinished evD = tD.length ∧
      (∀ ev ∈ evD, evTotal ev = total) ∧
      pipeStep cancel oracle fs total st i entry
        = { st with
            checks := st.checks + 2,
            sleeps := st.sleeps + 1,
            started := st.started + 1,
            tracks := st.tracks ++ tD,
            errors := st.errors ++ errD,
            events := st.events ++ evD,
            stopped := cancel (st.checks + 1),
            startedAtStop := if cancel (st.checks + 1) then st.started + 1
              else st.startedAtStop })) := by
  unfold pipeStep
  rw [hns]
  simp only [Bool.false_eq_true, if_false]
  cases hc : cancel st.checks with
  | true =>
      left
      refine ⟨by trivial, ?_⟩
      simp
  | false =>
      simp only [Bool.false_eq_true, if_false]
      cases entry with
      | none =>
          right; left
          refine ⟨by trivial, by trivial, by simp⟩
      | some e =>
          cases ht : truthyStr (pyOrOptStr e.url e.webpage_url) with
          | false =>
              right; right; left
              refine ⟨by trivial, e, ⟨pyOrInt e.playlist_index (Int.ofNat i),
                pyOrStr e.title [], missingUrlMsg⟩, by trivial, ?_⟩
              simp only [ht, Bool.false_eq_true, if_false]
          | true =>
              right; right; right
              refine ⟨by trivial, ?_⟩
              simp only [ht, if_true]
              unfold processUrlEntry finallyStep
              cases ho : oracle i with
              | raised msg =>
                  simp only [ho]
                  refine ⟨e, [], [⟨pyOrInt e.playlist_index (Int.ofNat i),
                    pyOrStr e.title [], msg⟩],
                    [ProgressEvent.started (pyOrStr e.title []) total],
                    by trivial, by simp, by simp [countFinished, isFinished], ?_, ?_⟩
                  · intro ev hev
                    simp at hev
                    rw [hev]
                    rfl
                  · simp
              | ok res =>
                  simp only [ho]
                  cases hr : resolveFilePath res with
                  | none =>
                      simp only [hr]
                      refine ⟨e, [], [⟨pyOrInt e.playlist_index (Int.ofNat i),
                        pyOrStr e.title [], noFilePathMsg⟩],
                        [ProgressEvent.started (pyOrStr e.title []) total],
                        by trivial, by simp, by simp [countFinished, isFinished], ?_, ?_⟩
                      · intro ev hev
                        simp at hev
                        rw [hev]
                        rfl
                      · simp
                  | some fp =>
                      simp only [hr]
                      refine ⟨e,
                        [mkTrackInfo e res (pyOrInt e.playlist_index (Int.ofNat i))
                          (pyOrStr e.title []) (pyOrInt e.duration 0) (mp3AdjustPath fs fp)],
                        [],
                        [ProgressEvent.started (pyOrStr e.title []) total,
                         ProgressEvent.finished
                           (mkTrackInfo e res (pyOrInt e.playlist_index (Int.ofNat i))
                             (pyOrStr e.title []) (pyOrInt e.duration 0)
                             (mp3AdjustPath fs fp)).title total
                           (mkTrackInfo e res (pyOrInt e.playlist_index (Int.ofNat i))
                             (pyOrStr e.title []) (pyOrInt e.duration 0)
                             (mp3AdjustPath fs fp))],
                        by trivial, by simp, by simp [countFinished, isFinished], ?_, ?_⟩
                      · intro ev hev
                        simp only [List.mem_cons, List.not_mem_nil, or_false] at hev
                        rcases hev with h1 | h1
                        · rw [h1]
                          rfl
                        · rw [h1]
                          rfl
                      · simp [List.append_assoc]

theorem countFinished_append (a b : List ProgressEvent) :
    countFinished (a ++ b) = countFinished a + countFinished b := by
  unfold countFinished
  rw [List.filter_append, List.length_append]

theorem bool_eq_false_of_ne_true {b : Bool} (h : ¬ b = true) : b = false := by
  cases b
  · rfl
  · exact absurd rfl h

/-- Everything the loop appends: tracks, errors and events only grow, every
    emitted event carries the loop's total_tracks, and the number of
    completion events equals the number of appended tracks. -/
theorem runEntries_append (cancel : Nat → Bool) (oracle : Nat → DlOutcome)
    (fs : List Char → Bool) (total : Nat) :
    ∀ (l : List (Option Entry)) (i : Nat) (st : LoopState),
    ∃ tD eD evD,
      (runEntries cancel oracle fs total st i l).tracks = st.tracks ++ tD
      ∧ (runEntries cancel oracle fs total st i l).errors = st.errors ++ eD
      ∧ (runEntries cancel oracle fs total st i l).events = st.events ++ evD
      ∧ countFinished evD = tD.length
      ∧ (∀ ev ∈ evD, evTotal ev = total) := by
  intro l
  induction l with
  | nil =>
      intro i st
      exact ⟨[], [], [], by simp [runEntries], by simp [runEntries],
        by simp [runEntries], by simp [countFinished], by simp⟩
  | cons ent rest ih =>
      intro i st
      simp only [runEntries]
      by_cases hs : st.stopped = true
      · rw [pipeStep_stopped cancel oracle fs total st i ent hs]
        exact ih (i + 1) st
      · have hns : st.stopped = false := bool_eq_false_of_ne_true hs
        rcases pipeStep_shape cancel oracle fs total st i ent hns with
          ⟨hc, heq⟩ | ⟨hc, hent, heq⟩ | ⟨hc, e, err, hent, heq⟩
          | ⟨hc, e, tD0, errD0, evD0, hent, hlen1, hcf0, hT0, heq⟩
        · rw [heq, runEntries_stopped cancel oracle fs total rest (i + 1) _ rfl]
          exact ⟨[], [], [], by simp, by simp, by simp, by simp [countFinished], by simp⟩
        · rw [heq]
          exact ih (i + 1) _
        · rw [heq]
          obtain ⟨tD, eD, evD, h1, h2, h3, h4, h5⟩ := ih (i + 1) _
          refine ⟨tD, err :: eD, evD, h1, ?_, h3, h4, h5⟩
          rw [h2]
          show (st.errors ++ [err]) ++ eD = st.errors ++ (err :: eD)
          simp
        · rw [heq]
          obtain ⟨tD, eD, evD, h1, h2, h3, h4, h5⟩ := ih (i + 1) _
          refine ⟨tD0 ++ tD, errD0 ++ eD, evD0 ++ evD, ?_, ?_, ?_, ?_, ?_⟩
          · rw [h1]
            show (st.tracks ++ tD0) ++ tD = st.tracks ++ (tD0 ++ tD)
            simp
          · rw [h2]
            show (st.errors ++ errD0) ++ eD = st.errors ++ (errD0 ++ eD)
            simp
          · rw [h3]
            show (st.events ++ evD0) ++ evD = st.events ++ (evD0 ++ evD)
            simp
          · rw [countFinished_append, List.length_append, hcf0, h4]
          · intro ev hev
            rcases List.mem_append.mp hev with h | h
            · exact hT0 ev h
            · exact h5 ev h

/-- One pacing sleep happens for exactly each recorded outcome (success or
    error): the sleep count grows together with tracks + errors. -/
theorem runEntries_sleeps (cancel : Nat → Bool) (oracle : Nat → DlOutcome)
    (fs : List Char → Bool) (total : Nat) :
    ∀ (l : List (Option Entry)) (i : Nat) (st : LoopState),
    (runEntries cancel oracle fs total st i l).sleeps + countsOf st
      = st.sleeps + countsOf (runEntries cancel oracle fs total st i l) := by
  intro l
  induction l with
  | nil => intro i st; rfl
  | cons ent rest ih =>
      intro i st
      simp only [runEntries]
      by_cases hs : st.stopped = true
      · rw [pipeStep_stopped cancel oracle fs total st i ent hs]
        exact ih (i + 1) st
      · have hns : st.stopped = false := bool_eq_false_of_ne_true hs
        rcases pipeStep_shape cancel oracle fs total st i ent hns with
          ⟨hc, heq⟩ | ⟨hc, hent, heq⟩ | ⟨hc, e, err, hent, heq⟩
          | ⟨hc, e, tD0, errD0, evD0, hent, hlen1, hcf0, hT0, heq⟩
        · rw [heq, runEntries_stopped cancel oracle fs total rest (i + 1) _ rfl]
          rfl
        · rw [heq]
          exact ih (i + 1) _
        · rw [heq]
          have hih := ih (i + 1)
            { st with
              checks := st.checks + 1,
              errors := st.errors ++ [err],
              sleeps := st.sleeps + 1,
              missingUrl := st.missingUrl + 1 }
          have e1 : ({ st with
              checks := st.checks + 1,
              errors := st.errors ++ [err],
              sleeps := st.sleeps + 1,
              missingUrl := st.missingUrl + 1 } : LoopState).sleeps = st.sleeps + 1 := rfl
          have e2 : countsOf { st with
              checks := st.checks + 1,
              errors := st.errors ++ [err],
              sleeps := st.sleeps + 1,
              missingUrl := st.missingUrl + 1 } = countsOf st + 1 := by
            simp only [countsOf, List.length_append, List.length_cons, List.length_nil]
            omega
          rw [e1, e2] at hih
          omega
        · rw [heq]
          have hih := ih (i + 1)
            { st with
              checks := st.checks + 2,
              sleeps := st.sleeps + 1,
              started := st.started + 1,
              tracks := st.tracks ++ tD0,
              errors := st.errors ++ errD0,
              events := st.events ++ evD0,
              stopped := cancel (st.checks + 1),
              startedAtStop := if cancel (st.checks + 1) then st.started + 1
                else st.startedAtStop }
          have e1 : ({ st with
              checks := st.checks + 2,
              sleeps := st.sleeps + 1,
              started := st.started + 1,
              tracks := st.tracks ++ tD0,
              errors := st.errors ++ errD0,
              events := st.events ++ evD0,
              stopped := cancel (st.checks + 1),
              startedAtStop := if cancel (st.checks + 1) then st.started + 1
                else st.startedAtStop } : LoopState).sleeps = st.sleeps + 1 := rfl
          have e2 : countsOf { st with
              checks := st.checks + 2,
              sleeps := st.sleeps + 1,
              started := st.started + 1,
              tracks := st.tracks ++ tD0,
              errors := st.errors ++ errD0,
              events := st.events ++ evD0,
              stopped := cancel (st.checks + 1),
              startedAtStop := if cancel (st.checks + 1) then st.started + 1
                else st.startedAtStop } = countsOf st + 1 := by
            simp only [countsOf, List.length_append, List.length_cons, List.length_nil]
            omega
          rw [e1, e2] at hih
          omega

/-- Every download that is started lands in exactly one of tracks or
    errors: tracks + errors grow together with started + missing-URL
    skips. -/
theorem runEntries_started (cancel : Nat → Bool) (oracle : Nat → DlOutcome)
    (fs : List Char → Bool) (total : Nat) :
    ∀ (l : List (Option Entry)) (i : Nat) (st : LoopState),
    (runEntries cancel oracle fs total st i l).started
      + (runEntries cancel oracle fs total st i l).missingUrl + countsOf st
      = st.started + st.missingUrl + countsOf (runEntries cancel oracle fs total st i l) := by
  intro l
  induction l with
  | nil => intro i st; rfl
  | cons ent rest ih =>
      intro i st
      simp only [runEntries]
      by_cases hs : st.stopped = true
      · rw [pipeStep_stopped cancel oracle fs total st i ent hs]
        exact ih (i + 1) st
      · have hns : st.stopped = false := bool_eq_false_of_ne_true hs
        rcases pipeStep_shape cancel oracle fs total st i ent hns with
          ⟨hc, heq⟩ | ⟨hc, hent, heq⟩ | ⟨hc, e, err, hent, heq⟩
          | ⟨hc, e, tD0, errD0, evD0, hent, hlen1, hcf0, hT0, heq⟩
        · rw [heq, runEntries_stopped cancel oracle fs total rest (i + 1) _ rfl]
          rfl
        · rw [heq]
          exact ih (i + 1) _
        · rw [heq]
          have hih := ih (i + 1)
            { st with
              checks := st.checks + 1,
              errors := st.errors ++ [err],
              sleeps := st.sleeps + 1,
              missingUrl := st.missingUrl + 1 }
          have e1 : ({ st with
              checks := st.checks + 1,
              errors := st.errors ++ [err],
              sleeps := st.sleeps + 1,
              missingUrl := st.missingUrl + 1 } : LoopState).missingUrl
              = st.missingUrl + 1 := rfl
          have e1b : ({ st with
              checks := st.checks + 1,
              errors := st.errors ++ [err],
              sleeps := st.sleeps + 1,
              missingUrl := st.missingUrl + 1 } : LoopState).started = st.started := rfl
          have e2 : countsOf { st with
              checks := st.checks + 1,
              errors := st.errors ++ [err],
              sleeps := st.sleeps + 1,
              missingUrl := st.missingUrl + 1 } = countsOf st + 1 := by
            simp only [countsOf, List.length_append, List.length_cons, List.length_nil]
            omega
          rw [e1, e1b, e2] at hih
          omega
        · rw [heq]
          have hih := ih (i + 1)
            { st with
              checks := st.checks + 2,
              sleeps := st.sleeps + 1,
              started := st.started + 1,
              tracks := st.tracks ++ tD0,
              errors := st.errors ++ errD0,
              events := st.events ++ evD0,
              stopped := cancel (st.checks + 1),
              startedAtStop := if cancel (st.checks + 1) then st.started + 1
                else st.startedAtStop }
          have e1 : ({ st with
              checks := st.checks + 2,
              sleeps := st.sleeps + 1,
              started := st.started + 1,
              tracks := st.tracks ++ tD0,
              errors := st.errors ++ errD0,
              events := st.events ++ evD0,
              stopped := cancel (st.checks + 1),
              startedAtStop := if cancel (st.checks + 1) then st.started + 1
                else st.startedAtStop } : LoopState).started = st.started + 1 := rfl
          have e1b : ({ st with
              checks := st.checks + 2,
              sleeps := st.sleeps + 1,
              started := st.started + 1,
              tracks := st.tracks ++ tD0,
              errors := st.errors ++ errD0,
              events := st.events ++ evD0,
              stopped := cancel (st.checks + 1),
              startedAtStop := if cancel (st.checks + 1) then st.started + 1
                else st.startedAtStop } : LoopState).missingUrl = st.missingUrl := rfl
          have e2 : countsOf { st with
              checks := st.checks + 2,
              sleeps := st.sleeps + 1,
              started := st.started + 1,
              tracks := st.tracks ++ tD0,
              errors := st.errors ++ errD0,
              events := st.events ++ evD0,
              stopped := cancel (st.checks + 1),
              startedAtStop := if cancel (st.checks + 1) then st.started + 1
                else st.startedAtStop } = countsOf st + 1 := by
            simp only [countsOf, List.length_append, List.length_cons, List.length_nil]
            omega
          rw [e1, e1b, e2] at hih
          omega

def absurd_bool {b : Bool} {C : Sort _} (h1 : b = false) (h2 : b = true) : C :=
  Bool.noConfusion (h1.symm.trans h2)

theorem countSome_cons_none (l : List (Option Entry)) :
    countSome (none :: l) = countSome l := by
  simp [countSome]

theorem countSome_cons_some (e : Entry) (l : List (Option Entry)) :
    countSome (some e :: l) = countSome l + 1 := by
  simp [countSome, List.filter]

theorem countSome_take_le (l : List (Option Entry)) (k : Nat) :
    countSome (l.take k) ≤ countSome l := by
  unfold countSome
  exact List.Sublist.length_le (List.Sublist.filter _ (List.take_sublist k l))

/-- Each non-empty entry the loop reaches contributes exactly one outcome
    (track or error): over a run, tracks + errors equals the number of
    non-empty entries in the processed prefix, and without cancellation the
    processed prefix is the whole entry list. -/
theorem runEntries_counts (cancel : Nat → Bool) (oracle : Nat → DlOutcome)
    (fs : List Char → Bool) (total : Nat) :
    ∀ (l : List (Option Entry)) (i : Nat) (st : LoopState), st.stopped = false →
    ∃ k, k ≤ l.length
      ∧ countsOf (runEntries cancel oracle fs total st i l)
          = countsOf st + countSome (l.take k)
      ∧ ((∀ j, cancel j = false) → k = l.length) := by
  intro l
  induction l with
  | nil =>
      intro i st _
      exact ⟨0, by simp, by simp [runEntries, countSome], fun _ => rfl⟩
  | cons ent rest ih =>
      intro i st hns
      simp only [runEntries]
      rcases pipeStep_shape cancel oracle fs total st i ent hns with
        ⟨hc, heq⟩ | ⟨hc, hent, heq⟩ | ⟨hc, e, err, hent, heq⟩
        | ⟨hc, e, tD0, errD0, evD0, hent, hlen1, hcf0, hT0, heq⟩
      · rw [heq, runEntries_stopped cancel oracle fs total rest (i + 1) _ rfl]
        refine ⟨0, by simp, ?_, ?_⟩
        · show countsOf _ = countsOf st + countSome []
          simp [countSome, countsOf]
        · intro hall
          exact absurd_bool (hall st.checks) hc
      · subst hent
        rw [heq]
        obtain ⟨k, hk, hcount, hnc⟩ := ih (i + 1)
          { st with checks := st.checks + 1 } hns
        refine ⟨k + 1, by simpa using Nat.succ_le_succ hk, ?_, ?_⟩
        · rw [List.take_succ_cons, countSome_cons_none, hcount]
          rfl
        · intro hall
          rw [hnc hall]
          simp
      · subst hent
        rw [heq]
        obtain ⟨k, hk, hcount, hnc⟩ := ih (i + 1)
          { st with
            checks := st.checks + 1,
            errors := st.errors ++ [err],
            sleeps := st.sleeps + 1,
            missingUrl := st.missingUrl + 1 } hns
        refine ⟨k + 1, by simpa using Nat.succ_le_succ hk, ?_, ?_⟩
        · rw [List.take_succ_cons, countSome_cons_some, hcount]
          have e2 : countsOf { st with
              checks := st.checks + 1,
              errors := st.errors ++ [err],
              sleeps := st.sleeps + 1,
              missingUrl := st.missingUrl + 1 } = countsOf st + 1 := by
            simp only [countsOf, List.length_append, List.length_cons, List.length_nil]
            omega
          rw [e2]
          omega
        · intro hall
          rw [hnc hall]
          simp
      · subst hent
        rw [heq]
        by_cases hc2 : cancel (st.checks + 1) = true
        · rw [runEntries_stopped cancel oracle fs total rest (i + 1) _ hc2]
          refine ⟨1, by simp, ?_, ?_⟩
          · have e2 : countsOf { st with
                checks := st.checks + 2,
                sleeps := st.sleeps + 1,
                started := st.started + 1,
                tracks := st.tracks ++ tD0,
                errors := st.errors ++ errD0,
                events := st.events ++ evD0,
                stopped := cancel (st.checks + 1),
                startedAtStop := if cancel (st.checks + 1) then st.started + 1
                  else st.startedAtStop } = countsOf st + 1 := by
              simp only [countsOf, List.length_append, List.length_cons, List.length_nil]
              omega
            rw [e2]
            have : countSome ((some e :: rest).take 1) = 1 := by
              simp [countSome, List.filter]
            rw [this]
          · intro hall
            exact absurd_bool (hall (st.checks + 1)) hc2
        · have hc2f : cancel (st.checks + 1) = false := bool_eq_false_of_ne_true hc2
          obtain ⟨k, hk, hcount, hnc⟩ := ih (i + 1)
            { st with
              checks := st.checks + 2,
              sleeps := st.sleeps + 1,
              started := st.started + 1,
              tracks := st.tracks ++ tD0,
              errors := st.errors ++ errD0,
              events := st.events ++ evD0,
              stopped := cancel (st.checks + 1),
              startedAtStop := if cancel (st.checks + 1) then st.started + 1
                else st.startedAtStop } hc2f
          refine ⟨k + 1, by simpa using Nat.succ_le_succ hk, ?_, ?_⟩
          · rw [List.take_succ_cons, countSome_cons_some, hcount]
            have e2 : countsOf { st with
                checks := st.checks + 2,
                sleeps := st.sleeps + 1,
                started := st.started + 1,
                tracks := st.tracks ++ tD0,
                errors := st.errors ++ errD0,
                events := st.events ++ evD0,
                stopped := cancel (st.checks + 1),
                startedAtStop := if cancel (st.checks + 1) then st.started + 1
                  else st.startedAtStop } = countsOf st + 1 := by
              simp only [countsOf, List.length_append, List.length_cons, List.length_nil]
              omega
            rw [e2]
            omega
          · intro hall
            rw [hnc hall]
            simp

/-- At most one track can complete per started download, and when the loop
    stops (on an observed cancellation) the final track count is bounded by
    the number of downloads started when the stop was recorded. -/
theorem runEntries_inv (cancel : Nat → Bool) (oracle : Nat → DlOutcome)
    (fs : List Char → Bool) (total : Nat) :
    ∀ (l : List (Option Entry)) (i : Nat) (st : LoopState),
    st.tracks.length ≤ st.started →
    (st.stopped = true → st.tracks.length ≤ st.startedAtStop) →
    ((runEntries cancel oracle fs total st i l).tracks.length
        ≤ (runEntries cancel oracle fs total st i l).started
     ∧ ((runEntries cancel oracle fs total st i l).stopped = true →
        (runEntries cancel oracle fs total st i l).tracks.length
          ≤ (runEntries cancel oracle fs total st i l).startedAtStop)) := by
  intro l
  induction l with
  | nil => intro i st h1 h2; exact ⟨h1, h2⟩
  | cons ent rest ih =>
      intro i st h1 h2
      simp only [runEntries]
      by_cases hs : st.stopped = true
      · rw [pipeStep_stopped cancel oracle fs total st i ent hs]
        exact ih (i + 1) st h1 h2
      · have hns : st.stopped = false := bool_eq_false_of_ne_true hs
        rcases pipeStep_shape cancel oracle fs total st i ent hns with
          ⟨hc, heq⟩ | ⟨hc, hent, heq⟩ | ⟨hc, e, err, hent, heq⟩
          | ⟨hc, e, tD0, errD0, evD0, hent, hlen1, hcf0, hT0, heq⟩
        · rw [heq]
          exact ih (i + 1) _ h1 (fun _ => h1)
        · rw [heq]
          exact ih (i + 1) _ h1 (fun hst => absurd_bool hns hst)
        · rw [heq]
          exact ih (i + 1) _ h1 (fun hst => absurd_bool hns hst)
        · rw [heq]
          refine ih (i + 1) _ ?_ ?_
          · show (st.tracks ++ tD0).length ≤ st.started + 1
            simp only [List.length_append]
            omega
          · intro hst
            have hst2 : cancel (st.checks + 1) = true := hst
            show (st.tracks ++ tD0).length
              ≤ (if cancel (st.checks + 1) = true then st.started + 1 else st.startedAtStop)
            rw [if_pos hst2]
            simp only [List.length_append]
            omega

/-- While the loop has not stopped, every cancellation read it has consumed
    returned false: an observed cancellation stops the loop. -/
theorem runEntries_obs (cancel : Nat → Bool) (oracle : Nat → DlOutcome)
    (fs : List Char → Bool) (total : Nat) :
    ∀ (l : List (Option Entry)) (i : Nat) (st : LoopState),
    (st.stopped = false → ∀ t, t < st.checks → cancel t = false) →
    ((runEntries cancel oracle fs total st i l).stopped = false →
      ∀ t, t < (runEntries cancel oracle fs total st i l).checks → cancel t = false) := by
  intro l
  induction l with
  | nil => intro i st hp; exact hp
  | cons ent rest ih =>
      intro i st hp
      simp only [runEntries]
      by_cases hs : st.stopped = true
      · rw [pipeStep_stopped cancel oracle fs total st i ent hs]
        exact ih (i + 1) st hp
      · have hns : st.stopped = false := bool_eq_false_of_ne_true hs
        rcases pipeStep_shape cancel oracle fs total st i ent hns with
          ⟨hc, heq⟩ | ⟨hc, hent, heq⟩ | ⟨hc, e, err, hent, heq⟩
          | ⟨hc, e, tD0, errD0, evD0, hent, hlen1, hcf0, hT0, heq⟩
        · rw [heq]
          refine ih (i + 1) _ ?_
          intro hst
          exact absurd_bool hst rfl
        · rw [heq]
          refine ih (i + 1) _ ?_
          intro _ t ht
          have ht2 : t < st.checks + 1 := ht
          by_cases h1 : t < st.checks
          · exact hp hns t h1
          · have : t = st.checks := by omega
            rw [this]
            exact hc
        · rw [heq]
          refine ih (i + 1) _ ?_
          intro _ t ht
          have ht2 : t < st.checks + 1 := ht
          by_cases h1 : t < st.checks
          · exact hp hns t h1
          · have : t = st.checks := by omega
            rw [this]
            exact hc
        · rw [heq]
          refine ih (i + 1) _ ?_
          intro hst t ht
          have hst2 : cancel (st.checks + 1) = false := hst
          have ht2 : t < st.checks + 2 := ht
          by_cases h1 : t < st.checks
          · exact hp hns t h1
          · by_cases h2 : t = st.checks
            · rw [h2]
              exact hc
            · have : t = st.checks + 1 := by omega
              rw [this]
              exact hst2

/-! Claim-level theorems about download_playlist. -/

/-- C1: for every run of download_playlist that returns normally, the
    number of TrackError entries plus the number of successful TrackInfo
    results equals the number of non-empty playlist entries in the prefix
    processed before cancellation, and if cancellation is never requested
    that prefix is the entire entry list; empty entries contribute to
    neither count. -/
theorem download_counts_match_processed_entries (ffmpegExists : Bool)
    (extract : Except (List Char) PlaylistData) (cancel : Nat → Bool)
    (oracle : Nat → DlOutcome) (fs : List Char → Bool) (run : PipelineRun)
    (h : download_playlist ffmpegExists extract cancel oracle fs = .ok run) :
    ∃ pd, extract = .ok pd ∧
      ∃ k, k ≤ (pd.entries.getD []).length
        ∧ run.result.errors.length + run.result.tracks.length
            = countSome ((pd.entries.getD []).take k)
        ∧ ((∀ j, cancel j = false) → k = (pd.entries.getD []).length) := by
  cases ffmpegExists with
  | false => simp [download_playlist] at h
  | true =>
      cases extract with
      | error msg => simp [download_playlist] at h
      | ok pd =>
          refine ⟨pd, rfl, ?_⟩
          have hrfl : download_playlist true (.ok pd) cancel oracle fs
              = .ok { result :=
                        { playlist_title := pyOrStr pd.title [],
                          tracks := (runEntries cancel oracle fs
                              (countSome (pd.entries.getD []))
                              initLoopState 1 (pd.entries.getD [])).tracks,
                          errors := (runEntries cancel oracle fs
                              (countSome (pd.entries.getD []))
                              initLoopState 1 (pd.entries.getD [])).errors },
                      finalState := runEntries cancel oracle fs
                        (countSome (pd.entries.getD []))
                        initLoopState 1 (pd.entries.getD []) } := rfl
          rw [hrfl] at h
          injection h with h2
          obtain ⟨k, hk, hcount, hnc⟩ := runEntries_counts cancel oracle fs
            (countSome (pd.entries.getD [])) (pd.entries.getD []) 1 initLoopState rfl
          refine ⟨k, hk, ?_, hnc⟩
          rw [← h2]
          simp only [countsOf] at hcount
          have hz : initLoopState.tracks.length + initLoopState.errors.length = 0 := rfl
          dsimp only
          omega

/-- C5 (amended): the pacing sleep happens exactly once after each
    processed non-empty entry — the sleep count equals tracks + errors —
    and every started download is never abandoned: started downloads plus
    missing-URL skips also equal tracks + errors. -/
theorem download_sleeps_per_nonempty_entry (ffmpegExists : Bool)
    (extract : Except (List Char) PlaylistData) (cancel : Nat → Bool)
    (oracle : Nat → DlOutcome) (fs : List Char → Bool) (run : PipelineRun)
    (h : download_playlist ffmpegExists extract cancel oracle fs = .ok run) :
    run.finalState.sleeps = run.result.tracks.length + run.result.errors.length
    ∧ run.finalState.started + run.finalState.missingUrl
        = run.result.tracks.length + run.result.errors.length := by
  cases ffmpegExists with
  | false => simp [download_playlist] at h
  | true =>
      cases extract with
      | error msg => simp [download_playlist] at h
      | ok pd =>
          have hrfl : download_playlist true (.ok pd) cancel oracle fs
              = .ok { result :=
                        { playlist_title := pyOrStr pd.title [],
                          tracks := (runEntries cancel oracle fs
                              (countSome (pd.entries.getD []))
                              initLoopState 1 (pd.entries.getD [])).tracks,
                          errors := (runEntries cancel oracle fs
                              (countSome (pd.entries.getD []))
                              initLoopState 1 (pd.entries.getD [])).errors },
                      finalState := runEntries cancel oracle fs
                        (countSome (pd.entries.getD []))
                        initLoopState 1 (pd.entries.getD []) } := rfl
          rw [hrfl] at h
          injection h with h2
          have hsl := runEntries_sleeps cancel oracle fs
            (countSome (pd.entries.getD [])) (pd.entries.getD []) 1 initLoopState
          have hst := runEntries_started cancel oracle fs
            (countSome (pd.entries.getD [])) (pd.entries.getD []) 1 initLoopState
          simp only [countsOf] at hsl hst
          have z1 : initLoopState.sleeps = 0 := rfl
          have z2 : initLoopState.started = 0 := rfl
          have z3 : initLoopState.missingUrl = 0 := rfl
          have z4 : initLoopState.tracks.length = 0 := rfl
          have z5 : initLoopState.errors.length = 0 := rfl
          rw [z1, z4, z5] at hsl
          rw [z2, z3, z4, z5] at hst
          rw [← h2]
          dsimp only
          constructor
          · omega
          · omega

/-- C5 counterexample input: a playlist whose single entry is empty. -/
def emptyEntryPd : PlaylistData := { title := none, entries := some [none] }

/-- C5 is false as stated: for a playlist with one (empty) entry the loop
    iterates the entry — it consumes one cancellation check for it — but
    sleeps zero times, not once: empty entries are skipped without the
    pacing sleep. -/
theorem download_no_sleep_for_empty_entry :
    (download_playlist true (.ok emptyEntryPd)
        (fun _ => false) (fun _ => DlOutcome.raised []) (fun _ => false)).map
      (fun run => (run.finalState.sleeps, run.finalState.checks))
    = .ok (0, 1) := rfl

/-! Embedding of src/app/main.py: the Job record, the progress callback,
    and process_download.  The job's cancel_requested flag is represented
    by the cancellation-read schedule shared with the pipeline: the final
    `if job.cancel_requested` read in process_download is the read at index
    run.finalState.checks, after every read the pipeline consumed. -/

inductive JStatus where
  | pending
  | downloading
  | zipping
  | complete
  | cancelled
  | error
deriving DecidableEq, Repr

structure Job where
  url : List Char
  status : JStatus
  playlist_title : Option (List Char)
  total_tracks : Nat
  completed_tracks : Nat
  completed_tracks_info : List (Option (List Char))
  current_track : Option (List Char)
  errors : List TrackError
  zip_path : Option (List Char)
deriving DecidableEq, Repr

def mkJob (url : List Char) : Job :=
  { url := url, status := JStatus.pending, playlist_title := none, total_tracks := 0,
    completed_tracks := 0, completed_tracks_info := [], current_track := none,
    errors := [], zip_path := none }

/-- process_download.progress_callback: always update current_track and
    total_tracks; when a TrackInfo is supplied, bump completed_tracks and
    append the track's title. -/
def applyEvent (job : Job) (ev : ProgressEvent) : Job :=
  match ev with
  | .started t total => { job with current_track := some t, total_tracks := total }
  | .finished t total info =>
      { job with
        current_track := t,
        total_tracks := total,
        completed_tracks := job.completed_tracks + 1,
        completed_tracks_info := job.completed_tracks_info ++ [info.title] }

def applyEvents (job : Job) (evs : List ProgressEvent) : Job := evs.foldl applyEvent job

/-- Every job state observable while the progress callbacks arrive. -/
def jobStates (job : Job) : List ProgressEvent → List Job
  | [] => [job]
  | ev :: rest => job :: jobStates (applyEvent job ev) rest

/-- The job just after the pipeline returns: title backfilled from the
    result (empty-string falsy), the error list replaced by the run's
    errors, status zipping, current track cleared. -/
def jobAfterPipeline (job0 : Job) (run : PipelineRun) : Job :=
  let j2 := applyEvents { job0 with status := JStatus.downloading } run.finalState.events
  { j2 with
    playlist_title := if run.result.playlist_title.isEmpty then j2.playlist_title
      else some run.result.playlist_title,
    errors := run.result.errors,
    status := JStatus.zipping,
    current_track := none }

structure ProcOutcome where
  finalJob : Job
  snapshots : List Job
  statusTrace : List JStatus
  zipped : Option ZipResult
deriving DecidableEq, Repr

/-- main.process_download: mark the job downloading, run the pipeline,
    apply its progress callbacks, move to zipping, pack the archive, and
    finish as cancelled or complete depending on the cancellation flag; any
    exception routes the job to error with a synthetic index-0 entry.  The
    outcome also records the observable snapshots and the sequence of
    status assignments. -/
def process_download (job0 : Job) (ffmpegExists : Bool)
    (extract : Except (List Char) PlaylistData)
    (cancel : Nat → Bool) (oracle : Nat → DlOutcome) (fs : List Char → Bool)
    (fsSize : List Char → Option Nat) (fsExists : List Char → Bool) : ProcOutcome :=
  match download_playlist ffmpegExists extract cancel oracle fs with
  | .error msg =>
      { finalJob := { job0 with
          status := JStatus.error,
          errors := job0.errors ++ [⟨0, [], msg⟩] },
        snapshots := [job0, { job0 with status := JStatus.downloading },
          { job0 with
            status := JStatus.error,
            errors := job0.errors ++ [⟨0, [], msg⟩] }],
        statusTrace := [JStatus.downloading, JStatus.error],
        zipped := none }
  | .ok run =>
      match create_playlist_zip fsSize fsExists run.result.tracks
          (pyOrStr (jobAfterPipeline job0 run).playlist_title ("playlist".toList)) with
      | .error msg =>
          { finalJob := { jobAfterPipeline job0 run with
              status := JStatus.error,
              errors := (jobAfterPipeline job0 run).errors ++ [⟨0, [], msg⟩] },
            snapshots := job0 :: jobStates { job0 with status := JStatus.downloading }
                run.finalState.events
              ++ [jobAfterPipeline job0 run,
                  { jobAfterPipeline job0 run with
                    status := JStatus.error,
                    errors := (jobAfterPipeline job0 run).errors ++ [⟨0, [], msg⟩] }],
            statusTrace := [JStatus.downloading, JStatus.zipping, JStatus.error],
            zipped := none }
      | .ok z =>
          { finalJob := { jobAfterPipeline job0 run with
              zip_path := some z.zip_path,
              status := if cancel run.finalState.checks then JStatus.cancelled
                else JStatus.complete },
            snapshots := job0 :: jobStates { job0 with status := JStatus.downloading }
                run.finalState.events
              ++ [jobAfterPipeline job0 run,
                  { jobAfterPipeline job0 run with zip_path := some z.zip_path },
                  { jobAfterPipeline job0 run with
                    zip_path := some z.zip_path,
                    status := if cancel run.finalState.checks then JStatus.cancelled
                      else JStatus.complete }],
            statusTrace := [JStatus.downloading, JStatus.zipping,
              if cancel run.finalState.checks then JStatus.cancelled
                else JStatus.complete],
            zipped := some z }

/-! Lemmas about archive-writing and the job trace. -/

/-- A successful pack writes exactly one archive entry per successful
    track, in order, each referring to that track's source file. -/
theorem zipWrite_ok_exact (fsExists : List Char → Bool) :
    ∀ (tracks : List TrackInfo) (used : List Char → Nat)
      (es : List (List Char × List Char)),
    zipWriteInMemory fsExists used tracks = .ok es →
    es.length = tracks.length ∧ es.map Prod.snd = tracks.map TrackInfo.file_path := by
  intro tracks
  induction tracks with
  | nil =>
      intro used es h
      injection h with h
      rw [← h]
      exact ⟨rfl, rfl⟩
  | cons t rest ih =>
      intro used es h
      unfold zipWriteInMemory at h
      by_cases hf : fsExists t.file_path = true
      · rw [if_pos hf] at h
        cases hrec : zipWriteInMemory fsExists
            (unique_zip_name used (format_track_filename t)).1 rest with
        | ok es2 =>
            rw [hrec] at h
            injection h with h
            obtain ⟨h1, h2⟩ := ih _ es2 hrec
            rw [← h]
            constructor
            · simp [h1]
            · simp [h2]
        | error msg =>
            rw [hrec] at h
            cases h
      · rw [if_neg hf] at h
        cases h

theorem countFinished_cons_started (t : List Char) (total : Nat)
    (rest : List ProgressEvent) :
    countFinished (ProgressEvent.started t total :: rest) = countFinished rest := by
  simp [countFinished, List.filter, isFinished]

theorem countFinished_cons_finished (t : Option (List Char)) (total : Nat)
    (info : TrackInfo) (rest : List ProgressEvent) :
    countFinished (ProgressEvent.finished t total info :: rest)
      = countFinished rest + 1 := by
  simp [countFinished, List.filter, isFinished]

theorem applyEvents_mem_jobStates : ∀ (evs : List ProgressEvent) (job : Job),
    applyEvents job evs ∈ jobStates job evs := by
  intro evs
  induction evs with
  | nil => intro job; simp [applyEvents, jobStates]
  | cons ev rest ih =>
      intro job
      simp only [applyEvents, List.foldl_cons, jobStates, List.mem_cons]
      right
      exact ih (applyEvent job ev)

/-- The callback invariant: along any event trace whose events all carry
    the same total T and whose completion events fit in the budget T, every
    observed job state keeps completed_tracks equal to the length of
    completed_tracks_info and bounded by total_tracks. -/
theorem jobStates_inv (T : Nat) :
    ∀ (evs : List ProgressEvent) (job : Job),
    job.completed_tracks = job.completed_tracks_info.length →
    job.completed_tracks ≤ job.total_tracks →
    (∀ ev ∈ evs, evTotal ev = T) →
    job.completed_tracks + countFinished evs ≤ T →
    ∀ j ∈ jobStates job evs,
      j.completed_tracks = j.completed_tracks_info.length
        ∧ j.completed_tracks ≤ j.total_tracks := by
  intro evs
  induction evs with
  | nil =>
      intro job h0 hle _ _ j hj
      simp [jobStates] at hj
      rw [hj]
      exact ⟨h0, hle⟩
  | cons ev rest ih =>
      intro job h0 hle hT hcap j hj
      simp only [jobStates, List.mem_cons] at hj
      rcases hj with hj | hj
      · rw [hj]
        exact ⟨h0, hle⟩
      · have hTev : evTotal ev = T := hT ev (List.mem_cons_self ev rest)
        have hTrest : ∀ e2 ∈ rest, evTotal e2 = T :=
          fun e2 h2 => hT e2 (List.mem_cons_of_mem ev h2)
        cases ev with
        | started t total =>
            have htot : total = T := hTev
            have hcf : countFinished (ProgressEvent.started t total :: rest)
                = countFinished rest := countFinished_cons_started t total rest
            refine ih (applyEvent job (ProgressEvent.started t total)) ?_ ?_ hTrest ?_ j hj
            · exact h0
            · show job.completed_tracks ≤ total
              rw [hcf] at hcap
              omega
            · show job.completed_tracks + countFinished rest ≤ T
              rw [hcf] at hcap
              exact hcap
        | finished t total info =>
            have htot : total = T := hTev
            have hcf : countFinished (ProgressEvent.finished t total info :: rest)
                = countFinished rest + 1 := countFinished_cons_finished t total info rest
            refine ih (applyEvent job (ProgressEvent.finished t total info)) ?_ ?_ hTrest ?_ j hj
            · show job.completed_tracks + 1
                = (job.completed_tracks_info ++ [info.title]).length
              rw [List.length_append, h0]
              rfl
            · show job.completed_tracks + 1 ≤ total
              rw [hcf] at hcap
              omega
            · show job.completed_tracks + 1 + countFinished rest ≤ T
              rw [hcf] at hcap
              omega

/-- C3: a job whose pipeline returns normally advances through
    downloading → zipping and — when packaging succeeds and no cancellation
    was requested — ends complete, never error, whatever its per-track
    error list contains (the failures stay enumerated in the job's error
    list); only an exception from the pipeline or the packager routes the
    job to error, and then the failure message is appended as a synthetic
    TrackError at index 0. -/
theorem process_error_routing (job0 : Job) (ffmpegExists : Bool)
    (extract : Except (List Char) PlaylistData) (cancel : Nat → Bool)
    (oracle : Nat → DlOutcome) (fs : List Char → Bool)
    (fsSize : List Char → Option Nat) (fsExists : List Char → Bool) :
    (∀ run z, download_playlist ffmpegExists extract cancel oracle fs = .ok run →
      create_playlist_zip fsSize fsExists run.result.tracks
          (pyOrStr (jobAfterPipeline job0 run).playlist_title ("playlist".toList))
        = .ok z →
      ((cancel run.finalState.checks = false →
        (process_download job0 ffmpegExists extract cancel oracle fs
            fsSize fsExists).statusTrace
          = [JStatus.downloading, JStatus.zipping, JStatus.complete])
      ∧ (process_download job0 ffmpegExists extract cancel oracle fs
            fsSize fsExists).finalJob.errors = run.result.errors
      ∧ (process_download job0 ffmpegExists extract cancel oracle fs
            fsSize fsExists).finalJob.status ≠ JStatus.error))
    ∧ (∀ msg, download_playlist ffmpegExists extract cancel oracle fs = .error msg →
        ((process_download job0 ffmpegExists extract cancel oracle fs
            fsSize fsExists).statusTrace = [JStatus.downloading, JStatus.error]
        ∧ (process_download job0 ffmpegExists extract cancel oracle fs
            fsSize fsExists).finalJob.errors = job0.errors ++ [⟨0, [], msg⟩]))
    ∧ (∀ run msg, download_playlist ffmpegExists extract cancel oracle fs = .ok run →
        create_playlist_zip fsSize fsExists run.result.tracks
            (pyOrStr (jobAfterPipeline job0 run).playlist_title ("playlist".toList))
          = .error msg →
        ((process_download job0 ffmpegExists extract cancel oracle fs
            fsSize fsExists).statusTrace
          = [JStatus.downloading, JStatus.zipping, JStatus.error]
        ∧ (process_download job0 ffmpegExists extract cancel oracle fs
            fsSize fsExists).finalJob.errors
          = run.result.errors ++ [⟨0, [], msg⟩])) := by
  refine ⟨?_, ?_, ?_⟩
  · intro run z hok hzip
    simp only [process_download, hok, hzip]
    refine ⟨?_, rfl, ?_⟩
    · intro hnc
      rw [hnc]
      simp
    · by_cases hc : cancel run.finalState.checks = true
      · simp only [hc, if_true]
        decide
      · have hcf := bool_eq_false_of_ne_true hc
        simp only [hcf, Bool.false_eq_true, if_false]
        decide
  · intro msg herr
    simp only [process_download, herr]
    exact ⟨by trivial, by trivial⟩
  · intro run msg hok hzip
    simp only [process_download, hok, hzip]
    exact ⟨by trivial, by trivial⟩

/-- Identification of a successful pipeline run with the loop it embeds. -/
theorem download_ok_shape (ffmpegExists : Bool)
    (extract : Except (List Char) PlaylistData) (cancel : Nat → Bool)
    (oracle : Nat → DlOutcome) (fs : List Char → Bool) (run : PipelineRun)
    (h : download_playlist ffmpegExists extract cancel oracle fs = .ok run) :
    ∃ pd, extract = .ok pd
      ∧ run.finalState = runEntries cancel oracle fs (countSome (pd.entries.getD []))
          initLoopState 1 (pd.entries.getD [])
      ∧ run.result.tracks = run.finalState.tracks
      ∧ run.result.errors = run.finalState.errors := by
  cases ffmpegExists with
  | false => simp [download_playlist] at h
  | true =>
      cases extract with
      | error msg => simp [download_playlist] at h
      | ok pd =>
          have hrfl : download_playlist true (.ok pd) cancel oracle fs
              = .ok { result :=
                        { playlist_title := pyOrStr pd.title [],
                          tracks := (runEntries cancel oracle fs
                              (countSome (pd.entries.getD []))
                              initLoopState 1 (pd.entries.getD [])).tracks,
                          errors := (runEntries cancel oracle fs
                              (countSome (pd.entries.getD []))
                              initLoopState 1 (pd.entries.getD [])).errors },
                      finalState := runEntries cancel oracle fs
                        (countSome (pd.entries.getD []))
                        initLoopState 1 (pd.entries.getD []) } := rfl
          rw [hrfl] at h
          injection h with h2
          refine ⟨pd, rfl, ?_, ?_, ?_⟩
          · rw [← h2]
          · rw [← h2]
          · rw [← h2]

/-- C2: with a monotone cancellation flag that is requested at some read
    the pipeline consumed (index c, before the run's last consumed read),
    the run stops cooperatively: the number of successful tracks is at most
    the number of downloads started when the stop was observed (the
    in-flight track's number N), the job can never finish complete, and
    when packaging succeeds the job finishes cancelled with an archive
    containing exactly one entry per successful track, in order. -/
theorem cancellation_partial_archive (job0 : Job) (ffmpegExists : Bool)
    (extract : Except (List Char) PlaylistData) (cancel : Nat → Bool)
    (oracle : Nat → DlOutcome) (fs : List Char → Bool)
    (fsSize : List Char → Option Nat) (fsExists : List Char → Bool)
    (run : PipelineRun) (c : Nat)
    (hmono : ∀ a b : Nat, a ≤ b → cancel a = true → cancel b = true)
    (hok : download_playlist ffmpegExists extract cancel oracle fs = .ok run)
    (hreq : cancel c = true) (hduring : c < run.finalState.checks) :
    (run.finalState.stopped = true
      ∧ run.result.tracks.length ≤ run.finalState.startedAtStop)
    ∧ (process_download job0 ffmpegExists extract cancel oracle fs
        fsSize fsExists).finalJob.status ≠ JStatus.complete
    ∧ (∀ z, create_playlist_zip fsSize fsExists run.result.tracks
          (pyOrStr (jobAfterPipeline job0 run).playlist_title ("playlist".toList))
        = .ok z →
      (process_download job0 ffmpegExists extract cancel oracle fs
          fsSize fsExists).finalJob.status = JStatus.cancelled
      ∧ z.entries.length = run.result.tracks.length
      ∧ z.entries.map Prod.snd = run.result.tracks.map TrackInfo.file_path) := by
  obtain ⟨pd, hext, hfs, htr, herr⟩ :=
    download_ok_shape ffmpegExists extract cancel oracle fs run hok
  have hcc : cancel run.finalState.checks = true :=
    hmono c run.finalState.checks (Nat.le_of_lt hduring) hreq
  have hstopped : run.finalState.stopped = true := by
    by_cases hstop : run.finalState.stopped = true
    · exact hstop
    · exfalso
      have hobs := runEntries_obs cancel oracle fs
        (countSome (pd.entries.getD [])) (pd.entries.getD []) 1 initLoopState
        (fun _ t ht => absurd ht (by simp [initLoopState]))
      rw [← hfs] at hobs
      have := hobs (bool_eq_false_of_ne_true hstop) c hduring
      exact absurd_bool this hreq
  refine ⟨⟨hstopped, ?_⟩, ?_, ?_⟩
  · have hinv := runEntries_inv cancel oracle fs
      (countSome (pd.entries.getD [])) (pd.entries.getD []) 1 initLoopState
      (by simp [initLoopState]) (fun h => absurd_bool rfl h)
    rw [← hfs] at hinv
    rw [htr]
    exact hinv.2 hstopped
  · cases hz : create_playlist_zip fsSize fsExists run.result.tracks
        (pyOrStr (jobAfterPipeline job0 run).playlist_title ("playlist".toList)) with
    | error msg =>
        simp only [process_download, hok, hz]
        decide
    | ok z =>
        simp only [process_download, hok, hz, hcc, if_true]
        decide
  · intro z hz
    refine ⟨?_, ?_, ?_⟩
    · simp only [process_download, hok, hz, hcc, if_true]
    · have hentries : zipWriteInMemory fsExists (fun _ => 0) run.result.tracks
          = .ok z.entries := by
        unfold create_playlist_zip at hz
        by_cases hmem : run.result.tracks.foldl
            (fun acc t => acc + ((fsSize t.file_path).getD 0)) 0 < 100 * 1024 * 1024
        · rw [if_pos hmem] at hz
          cases hw : zipWriteInMemory fsExists (fun _ => 0) run.result.tracks with
          | ok es =>
              rw [hw] at hz
              injection hz with hz2
              rw [← hz2]
          | error m =>
              rw [hw] at hz
              cases hz
        · rw [if_neg hmem] at hz
          rw [zipWrite_paths_agree fsExists run.result.tracks (fun _ => 0)]
          cases hw : zipWriteStreaming fsExists (fun _ => 0) run.result.tracks with
          | ok es =>
              rw [hw] at hz
              injection hz with hz2
              rw [← hz2]
          | error m =>
              rw [hw] at hz
              cases hz
      exact (zipWrite_ok_exact fsExists run.result.tracks (fun _ => 0) z.entries hentries).1
    · have hentries : zipWriteInMemory fsExists (fun _ => 0) run.result.tracks
          = .ok z.entries := by
        unfold create_playlist_zip at hz
        by_cases hmem : run.result.tracks.foldl
            (fun acc t => acc + ((fsSize t.file_path).getD 0)) 0 < 100 * 1024 * 1024
        · rw [if_pos hmem] at hz
          cases hw : zipWriteInMemory fsExists (fun _ => 0) run.result.tracks with
          | ok es =>
              rw [hw] at hz
              injection hz with hz2
              rw [← hz2]
          | error m =>
              rw [hw] at hz
              cases hz
        · rw [if_neg hmem] at hz
          rw [zipWrite_paths_agree fsExists run.result.tracks (fun _ => 0)]
          cases hw : zipWriteStreaming fsExists (fun _ => 0) run.result.tracks with
          | ok es =>
              rw [hw] at hz
              injection hz with hz2
              rw [← hz2]
          | error m =>
              rw [hw] at hz
              cases hz
      exact (zipWrite_ok_exact fsExists run.result.tracks (fun _ => 0) z.entries hentries).2

/-- C4: at every observed snapshot of a job created by the request handler
    (zero completed tracks, empty title list, any probed total), the
    completed-track counter equals the length of the completed-track title
    list and never exceeds the total-track count. -/
theorem job_snapshots_invariant (url : List Char) (ttl : Option (List Char))
    (t0 : Nat) (ffmpegExists : Bool) (extract : Except (List Char) PlaylistData)
    (cancel : Nat → Bool) (oracle : Nat → DlOutcome) (fs : List Char → Bool)
    (fsSize : List Char → Option Nat) (fsExists : List Char → Bool) (j : Job)
    (hmem : j ∈ (process_download
        { mkJob url with playlist_title := ttl, total_tracks := t0 }
        ffmpegExists extract cancel oracle fs fsSize fsExists).snapshots) :
    j.completed_tracks = j.completed_tracks_info.length
      ∧ j.completed_tracks ≤ j.total_tracks := by
  simp only [process_download] at hmem
  split at hmem
  · -- pipeline raised: three snapshots, none with any progress applied
    simp only [List.mem_cons, List.not_mem_nil, or_false] at hmem
    rcases hmem with h | h | h
    · rw [h]
      exact ⟨rfl, Nat.zero_le _⟩
    · rw [h]
      exact ⟨rfl, Nat.zero_le _⟩
    · rw [h]
      exact ⟨rfl, Nat.zero_le _⟩
  · rename_i run hdl
    obtain ⟨pd, hext, hfs, htr, herr⟩ :=
      download_ok_shape ffmpegExists extract cancel oracle fs run hdl
    obtain ⟨tD, eD, evD, a1, a2, a3, a4, a5⟩ := runEntries_append cancel oracle fs
      (countSome (pd.entries.getD [])) (pd.entries.getD []) 1 initLoopState
    have hevents : run.finalState.events = evD := by
      rw [hfs, a3]
      rfl
    have htracksD : run.finalState.tracks = tD := by
      rw [hfs, a1]
      rfl
    have hFin : countFinished run.finalState.events
        = run.finalState.tracks.length := by
      rw [hevents, htracksD, a4]
    have hTev : ∀ ev ∈ run.finalState.events,
        evTotal ev = countSome (pd.entries.getD []) := by
      rw [hevents]
      exact a5
    have hle : run.finalState.tracks.length ≤ countSome (pd.entries.getD []) := by
      obtain ⟨k, hk, hcount, _⟩ := runEntries_counts cancel oracle fs
        (countSome (pd.entries.getD [])) (pd.entries.getD []) 1 initLoopState rfl
      have hz : countsOf initLoopState = 0 := rfl
      rw [hz] at hcount
      calc run.finalState.tracks.length ≤ countsOf run.finalState := by
              simp [countsOf]
        _ = 0 + countSome ((pd.entries.getD []).take k) := by
              rw [hfs]
              exact hcount
        _ = countSome ((pd.entries.getD []).take k) := by omega
        _ ≤ countSome (pd.entries.getD []) := countSome_take_le _ k
    have hstates := jobStates_inv (countSome (pd.entries.getD []))
      run.finalState.events
      { mkJob url with
        playlist_title := ttl,
        total_tracks := t0,
        status := JStatus.downloading }
      rfl (Nat.zero_le _) hTev
      (by
        rw [hFin]
        show 0 + run.finalState.tracks.length ≤ _
        omega)
    have hj2 := hstates
      (applyEvents
        { mkJob url with
          playlist_title := ttl,
          total_tracks := t0,
          status := JStatus.downloading } run.finalState.events)
      (applyEvents_mem_jobStates run.finalState.events _)
    split at hmem
    · -- packaging raised
      simp only [List.mem_cons, List.mem_append, List.not_mem_nil, or_false] at hmem
      rcases hmem with (h | h) | h | h
      · rw [h]
        exact ⟨rfl, Nat.zero_le _⟩
      · exact hstates j h
      · rw [h]
        exact ⟨hj2.1, hj2.2⟩
      · rw [h]
        exact ⟨hj2.1, hj2.2⟩
    · -- packaging succeeded
      simp only [List.mem_cons, List.mem_append, List.not_mem_nil, or_false] at hmem
      rcases hmem with (h | h) | h | h | h
      · rw [h]
        exact ⟨rfl, Nat.zero_le _⟩
      · exact hstates j h
      · rw [h]
        exact ⟨hj2.1, hj2.2⟩
      · rw [h]
        exact ⟨hj2.1, hj2.2⟩
      · rw [h]
        exact ⟨hj2.1, hj2.2⟩

/-! Embedding of main.py URL validation and the submit handler
    start_download. -/

def isWordDash (c : Char) : Bool := c.isAlphanum || c = '_' || c = '-'

/-- The https?:// scheme of both regex patterns, as a prefix match. -/
def schemeRest (s : List Char) : Option (List Char) :=
  if s.take 8 = "https://".toList then some (s.drop 8)
  else if s.take 7 = "http://".toList then some (s.drop 7)
  else none

/-- re.match of SOUNDCLOUD_PLAYLIST_PATTERN: a prefix of the string is
    https?://soundcloud.com/ then one or more word/dash characters, /sets/,
    and at least one more word/dash character. -/
def matchesPlaylist (s : List Char) : Bool :=
  match schemeRest s with
  | none => false
  | some r =>
      if r.take 15 = "soundcloud.com/".toList then
        decide (1 ≤ ((r.drop 15).takeWhile isWordDash).length)
        && ((r.drop 15).drop ((r.drop 15).takeWhile isWordDash).length).take 6
            = "/sets/".toList
        && (match (((r.drop 15).drop ((r.drop 15).takeWhile isWordDash).length).drop 6).head? with
            | some c => isWordDash c
            | none => false)
      else false

/-- re.match of SOUNDCLOUD_SHORTLINK_PATTERN: a prefix of the string is
    https?://on.soundcloud.com/ then at least one word/dash character. -/
def matchesShortlink (s : List Char) : Bool :=
  match schemeRest s with
  | none => false
  | some r =>
      if r.take 18 = "on.soundcloud.com/".toList then
        match (r.drop 18).head? with
        | some c => isWordDash c
        | none => false
      else false

/-- Python `needle in hay` on strings. -/
def containsSub (hay needle : List Char) : Bool :=
  (List.range (hay.length + 1)).any (fun i => (hay.drop i).take needle.length = needle)

structure RawPlaylist where
  title : Option (List Char)
  entries : Option (List (Option Entry))
  uploader : Option (List Char)
deriving DecidableEq, Repr

structure PlaylistInfo where
  title : List Char
  track_count : Nat
  uploader : List Char
  url : List Char
deriving DecidableEq, Repr

/-- downloader.get_playlist_info: metadata probe without downloading; the
    track count is the number of non-empty entries. -/
def get_playlist_info (url : List Char)
    (fetch : Except (List Char) RawPlaylist) : Except (List Char) PlaylistInfo :=
  match fetch with
  | .error msg => .error msg
  | .ok info =>
      .ok { title := pyOrStr info.title [],
            track_count := countSome (info.entries.getD []),
            uploader := pyOrStr info.uploader [],
            url := url }

inductive HttpError where
  | invalidUrl
  | ffmpegMissing
  | playlistPrivate
  | playlistNotFound
deriving DecidableEq, Repr

structure DownloadResponse where
  job_id : List Char
  playlist_title : List Char
  track_count : Nat
deriving DecidableEq, Repr

/-- main._resolve_soundcloud_url: only a short-link triggers the redirect
    lookup, whose outcome (or raised exception) is the resolveOutcome
    oracle; all other URLs pass through unchanged. -/
def resolve_soundcloud_url (url : List Char)
    (resolveOutcome : Except Unit (List Char)) : Except Unit (List Char) :=
  if url.isEmpty then .ok url
  else if matchesShortlink url then resolveOutcome
  else .ok url

/-- main.start_download: strip and pattern-check the URL, require ffmpeg,
    resolve short links and re-check, then create and register the Job,
    and only after that probe the playlist metadata: a probe failure is
    reported as a 404 (private or not-found) while the registered Job
    stays in the map. -/
def start_download (jobs : List (List Char × Job)) (request_url : List Char)
    (ffmpegExists : Bool) (resolveOutcome : Except Unit (List Char))
    (fetch : Except (List Char) RawPlaylist) (job_id : List Char) :
    List (List Char × Job) × Except HttpError DownloadResponse :=
  let url := pyStrip request_url
  if ¬ (matchesPlaylist url || matchesShortlink url) then
    (jobs, .error HttpError.invalidUrl)
  else if ¬ ffmpegExists then (jobs, .error HttpError.ffmpegMissing)
  else
    match resolve_soundcloud_url url resolveOutcome with
    | .error _ => (jobs, .error HttpError.invalidUrl)
    | .ok url2 =>
        if ¬ matchesPlaylist url2 then (jobs, .error HttpError.invalidUrl)
        else
          let jobs1 := jobs ++ [(job_id, mkJob url2)]
          match get_playlist_info url2 fetch with
          | .error msg =>
              if containsSub (pyLower msg) ("private".toList) then
                (jobs1, .error HttpError.playlistPrivate)
              else (jobs1, .error HttpError.playlistNotFound)
          | .ok info =>
              (jobs1.map (fun p => if p.1 = job_id then
                  (p.1, { mkJob url2 with
                          playlist_title := some info.title,
                          total_tracks := info.track_count }) else p),
               .ok { job_id := job_id, playlist_title := info.title,
                     track_count := info.track_count })

def c6url : List Char := "https://soundcloud.com/artist/sets/mix".toList

/-- C6 is false as stated: submitting a well-formed playlist URL whose
    metadata probe fails yields a NotFound error, yet the Job was created
    and registered before the probe, so the job map is NOT unchanged — it
    now holds the new pending job. -/
theorem submit_registers_job_before_probe :
    (start_download [] c6url true (.ok []) (.error ("boom".toList))
        ("job-1".toList)).2 = .error HttpError.playlistNotFound
    ∧ (start_download [] c6url true (.ok []) (.error ("boom".toList))
        ("job-1".toList)).1
      = [(("job-1".toList : List Char), mkJob c6url)] := by
  constructor
  · rfl
  · rfl

/-- C6 (amended): a ValidationError for a non-matching URL occurs before
    Job creation, leaving the job map unchanged; but the metadata probe
    runs after the Job is created and registered, so a NotFoundError (for
    an inaccessible or private playlist) leaves the new pending Job
    registered in the map. -/
theorem submit_validation_and_probe_effects (jobs : List (List Char × Job))
    (request_url : List Char) (ffmpegExists : Bool)
    (resolveOutcome : Except Unit (List Char))
    (fetch : Except (List Char) RawPlaylist) (job_id : List Char) :
    ((matchesPlaylist (pyStrip request_url) = false
        ∧ matchesShortlink (pyStrip request_url) = false) →
      ((start_download jobs request_url ffmpegExists resolveOutcome fetch job_id).1
          = jobs
        ∧ (start_download jobs request_url ffmpegExists resolveOutcome fetch job_id).2
          = .error HttpError.invalidUrl))
    ∧ (∀ msg url2,
        (matchesPlaylist (pyStrip request_url)
          || matchesShortlink (pyStrip request_url)) = true →
        ffmpegExists = true →
        resolve_soundcloud_url (pyStrip request_url) resolveOutcome = .ok url2 →
        matchesPlaylist url2 = true →
        fetch = .error msg →
        ((start_download jobs request_url ffmpegExists resolveOutcome fetch job_id).1
            = jobs ++ [(job_id, mkJob url2)]
          ∧ ((start_download jobs request_url ffmpegExists resolveOutcome fetch job_id).2
               = .error HttpError.playlistPrivate
             ∨ (start_download jobs request_url ffmpegExists resolveOutcome fetch job_id).2
               = .error HttpError.playlistNotFound))) := by
  constructor
  · intro ⟨h1, h2⟩
    have hb : (matchesPlaylist (pyStrip request_url)
        || matchesShortlink (pyStrip request_url)) = false := by
      rw [h1, h2]
      rfl
    have hcond : ¬ ((matchesPlaylist (pyStrip request_url)
        || matchesShortlink (pyStrip request_url)) = true) :=
      fun hc => absurd_bool hb hc
    constructor
    · simp only [start_download, if_pos hcond]
    · simp only [start_download, if_pos hcond]
  · intro msg url2 hor hff hres hm2 hfetch
    have hcond : ¬ ¬ ((matchesPlaylist (pyStrip request_url)
        || matchesShortlink (pyStrip request_url)) = true) := fun hn => hn hor
    have hffc : ¬ ¬ (ffmpegExists = true) := fun hn => hn hff
    have hm2c : ¬ ¬ (matchesPlaylist url2 = true) := fun hn => hn hm2
    simp only [start_download, if_neg hcond, if_neg hffc, hres, if_neg hm2c,
      hfetch, get_playlist_info]
    by_cases hpriv : containsSub (pyLower msg) ("private".toList) = true
    · rw [if_pos hpriv]
      exact ⟨rfl, Or.inl rfl⟩
    · rw [if_neg hpriv]
      exact ⟨rfl, Or.inr rfl⟩

/-! Concrete inputs used by the witnesses. -/

def wPd0 : PlaylistData := { title := none, entries := none }

def wRun0 : PipelineRun :=
  { result := { playlist_title := [], tracks := [], errors := [] },
    finalState := initLoopState }

def wE : Entry :=
  { playlist_index := none, title := none, uploader := none, artist := none,
    duration := none, url := some ("u".toList), webpage_url := none }

def wRes : TrackResult :=
  { requested_downloads := none, filepath := some ("f.mp3".toList),
    raw_filename := none, title := none, uploader := none, duration := none }

def wTi : TrackInfo :=
  { index := 1, title := none, artist := none, duration := 0,
    file_path := "f.mp3".toList }

def wPd2 : PlaylistData := { title := none, entries := some [some wE, some wE] }

def wCancel : Nat → Bool := fun t => decide (1 ≤ t)

def wRun2 : PipelineRun :=
  { result := { playlist_title := [], tracks := [wTi], errors := [] },
    finalState :=
      { tracks := [wTi], errors := [],
        events := [ProgressEvent.started [] 2, ProgressEvent.finished none 2 wTi],
        sleeps := 1, checks := 2, started := 1, startedAtStop := 1,
        missingUrl := 0, stopped := true } }

def wZip0 : ZipResult := { zip_path := "playlist.zip".toList, entries := [] }

theorem wCancel_mono : ∀ a b : Nat, a ≤ b → wCancel a = true → wCancel b = true := by
  intro a b hab ha
  simp only [wCancel, decide_eq_true_eq] at ha ⊢
  omega

/-- Witness for C1 at a concrete run. -/
theorem download_counts_witness :
    download_playlist true (.ok wPd0) (fun _ => false)
        (fun _ => DlOutcome.raised []) (fun _ => false) = .ok wRun0
    ∧ (∃ pd, (Except.ok wPd0 : Except (List Char) PlaylistData) = .ok pd ∧
        ∃ k, k ≤ (pd.entries.getD []).length
          ∧ wRun0.result.errors.length + wRun0.result.tracks.length
              = countSome ((pd.entries.getD []).take k)
          ∧ ((∀ j : Nat, (fun _ : Nat => false) j = false)
              → k = (pd.entries.getD []).length)) :=
  ⟨rfl, download_counts_match_processed_entries true (.ok wPd0) (fun _ => false)
      (fun _ => DlOutcome.raised []) (fun _ => false) wRun0 rfl⟩

/-- Witness for the amended C5 at a concrete run. -/
theorem download_sleeps_witness :
    download_playlist true (.ok wPd0) (fun _ => false)
        (fun _ => DlOutcome.raised []) (fun _ => false) = .ok wRun0
    ∧ (wRun0.finalState.sleeps
          = wRun0.result.tracks.length + wRun0.result.errors.length
       ∧ wRun0.finalState.started + wRun0.finalState.missingUrl
          = wRun0.result.tracks.length + wRun0.result.errors.length) :=
  ⟨rfl, download_sleeps_per_nonempty_entry true (.ok wPd0) (fun _ => false)
      (fun _ => DlOutcome.raised []) (fun _ => false) wRun0 rfl⟩

/-- Witness for C2: a two-track playlist cancelled while track 1 is in
    flight. -/
theorem cancellation_partial_archive_witness :
    download_playlist true (.ok wPd2) wCancel (fun _ => DlOutcome.ok wRes)
        (fun _ => false) = .ok wRun2
    ∧ wCancel 1 = true
    ∧ 1 < wRun2.finalState.checks
    ∧ ((wRun2.finalState.stopped = true
        ∧ wRun2.result.tracks.length ≤ wRun2.finalState.startedAtStop)
      ∧ (process_download (mkJob []) true (.ok wPd2) wCancel
          (fun _ => DlOutcome.ok wRes) (fun _ => false) (fun _ => some 0)
          (fun _ => true)).finalJob.status ≠ JStatus.complete
      ∧ (∀ z, create_playlist_zip (fun _ => some 0) (fun _ => true)
            wRun2.result.tracks
            (pyOrStr (jobAfterPipeline (mkJob []) wRun2).playlist_title
              ("playlist".toList)) = .ok z →
          (process_download (mkJob []) true (.ok wPd2) wCancel
              (fun _ => DlOutcome.ok wRes) (fun _ => false) (fun _ => some 0)
              (fun _ => true)).finalJob.status = JStatus.cancelled
          ∧ z.entries.length = wRun2.result.tracks.length
          ∧ z.entries.map Prod.snd = wRun2.result.tracks.map TrackInfo.file_path)) :=
  ⟨rfl, rfl, by decide,
    cancellation_partial_archive (mkJob []) true (.ok wPd2) wCancel
      (fun _ => DlOutcome.ok wRes) (fun _ => false) (fun _ => some 0)
      (fun _ => true) wRun2 1 wCancel_mono rfl rfl (by decide)⟩

/-- Witness for C3 at a concrete run with successful packaging. -/
theorem process_error_routing_witness :
    download_playlist true (.ok wPd0) (fun _ => false)
        (fun _ => DlOutcome.raised []) (fun _ => false) = .ok wRun0
    ∧ create_playlist_zip (fun _ => some 0) (fun _ => true) wRun0.result.tracks
        (pyOrStr (jobAfterPipeline (mkJob []) wRun0).playlist_title
          ("playlist".toList)) = .ok wZip0
    ∧ (process_download (mkJob []) true (.ok wPd0) (fun _ => false)
        (fun _ => DlOutcome.raised []) (fun _ => false) (fun _ => some 0)
        (fun _ => true)).statusTrace
      = [JStatus.downloading, JStatus.zipping, JStatus.complete] :=
  ⟨rfl, rfl,
    ((process_error_routing (mkJob []) true (.ok wPd0) (fun _ => false)
        (fun _ => DlOutcome.raised []) (fun _ => false) (fun _ => some 0)
        (fun _ => true)).1 wRun0 wZip0 rfl rfl).1 rfl⟩

/-- Witness for C4 at the first snapshot of a concrete run. -/
theorem job_snapshots_invariant_witness :
    mkJob [] ∈ (process_download
        { mkJob [] with
          playlist_title := none,
          total_tracks := 0 } true (.ok wPd0) (fun _ => false)
        (fun _ => DlOutcome.raised []) (fun _ => false) (fun _ => some 0)
        (fun _ => true)).snapshots
    ∧ ((mkJob []).completed_tracks = (mkJob []).completed_tracks_info.length
       ∧ (mkJob []).completed_tracks ≤ (mkJob []).total_tracks) :=
  ⟨by decide,
    job_snapshots_invariant [] none 0 true (.ok wPd0) (fun _ => false)
      (fun _ => DlOutcome.raised []) (fun _ => false) (fun _ => some 0)
      (fun _ => true) (mkJob []) (by decide)⟩

/-- Witness for the amended C6: a non-matching URL leaves the map
    unchanged. -/
theorem submit_effects_witness :
    (matchesPlaylist (pyStrip ("x".toList)) = false
      ∧ matchesShortlink (pyStrip ("x".toList)) = false)
    ∧ ((start_download [] ("x".toList) true (.ok []) (.error [])
          ("j".toList)).1 = []
       ∧ (start_download [] ("x".toList) true (.ok []) (.error [])
          ("j".toList)).2 = .error HttpError.invalidUrl) :=
  ⟨⟨rfl, rfl⟩,
    (submit_validation_and_probe_effects [] ("x".toList) true (.ok [])
      (.error []) ("j".toList)).1 ⟨rfl, rfl⟩⟩

/-- Witness for C8: two tracks formatting to the identical name
    01 - X.mp3. -/
theorem collision_entries_witness :
    format_track_filename dupTrackA = "01 - X".toList ++ ".mp3".toList
    ∧ zipWriteInMemory (fun _ => true) (fun _ => 0) [dupTrackA, dupTrackB]
      = .ok [("01 - X".toList ++ ".mp3".toList, dupTrackA.file_path),
             ("01 - X".toList ++ " (2).mp3".toList, dupTrackB.file_path)] :=
  ⟨by decide, collision_entries_X_X2 dupTrackA dupTrackB ("01 - X".toList)
      (fun _ => true) rfl rfl (by decide) rfl (by decide) (by decide)⟩

end FlyKrew
